import Mathlib

/-!
# Shallow embedding of the shape-recognition engine

This file embeds the core of `src/lib/shapeRecognition.ts` (the current version of the
file: geometry primitives, the Ramer-Douglas-Peucker simplifier `rdp`, the angular
orderer `orderByAngle`, the monotone-chain `convexHull`, the circle/oval and star
detectors, `classifyPolygon`, and the pipeline `recognizeFromPoints`) and proves the
spec's testable properties about it.

Modelling conventions:
* JavaScript `number` arithmetic is modelled by exact real arithmetic (`ℝ`);
  `Math.hypot`, `Math.atan2`, `Math.round` are modelled by `Real.sqrt`, a piecewise
  `arctan`-based `atan2`, and `⌊x + 1/2⌋` respectively.
* JavaScript's `Array.prototype.sort` (a stable sort; the comparators used are
  difference-of-key comparators) is modelled by `List.insertionSort`, which is stable.
* The human-readable `description` strings interpolate decimal renderings of numbers;
  no claim concerns them, so descriptions are modelled as `""`.  All other fields
  (including the `color` constants) are modelled exactly.
-/

noncomputable section

open scoped Classical

namespace SR

/-- A 2D point, the source's `Point` interface: real `x`/`y` coordinates. -/
abbrev Point : Type := ℝ × ℝ

/-- `dist(a, b) = Math.hypot(a.x - b.x, a.y - b.y)`. -/
def dist (a b : Point) : ℝ := Real.sqrt ((a.1 - b.1) ^ 2 + (a.2 - b.2) ^ 2)

/-- `centroid(pts)`: arithmetic mean of the coordinates. -/
def centroid (pts : List Point) : Point :=
  ((pts.map Prod.fst).sum / pts.length, (pts.map Prod.snd).sum / pts.length)

/-- `perimeter(pts)`: sum of consecutive distances, wrapping last → first
(the source indexes `pts[(i+1) % pts.length]`). -/
def perimeter (pts : List Point) : ℝ :=
  ((pts.zip (pts.rotate 1)).map fun ab => dist ab.1 ab.2).sum

/-- JavaScript `Math.atan2 y x` on (finite, unsigned-zero-free) real inputs. -/
def atan2 (y x : ℝ) : ℝ :=
  if 0 < x then Real.arctan (y / x)
  else if x < 0 then
    (if 0 ≤ y then Real.arctan (y / x) + Real.pi else Real.arctan (y / x) - Real.pi)
  else
    (if 0 < y then Real.pi / 2 else if y < 0 then -(Real.pi / 2) else 0)

/-- `angleBetween(a, b, c)`: the unsigned angle at `b`, via `atan2(|cross|, dot)`. -/
def angleBetween (a b c : Point) : ℝ :=
  let abv : Point := (a.1 - b.1, a.2 - b.2)
  let cbv : Point := (c.1 - b.1, c.2 - b.2)
  atan2 |abv.1 * cbv.2 - abv.2 * cbv.1| (abv.1 * cbv.1 + abv.2 * cbv.2)

/-- `pointToLineDist(p, a, b)`: perpendicular distance from `p` to the infinite line
through `a`, `b`; falls back to `dist(p, a)` when `a = b`. -/
def pointToLineDist (p a b : Point) : ℝ :=
  if Real.sqrt ((b.1 - a.1) ^ 2 + (b.2 - a.2) ^ 2) = 0 then dist p a
  else |(p.1 - a.1) * (b.2 - a.2) - (p.2 - a.2) * (b.1 - a.1)| /
    Real.sqrt ((b.1 - a.1) ^ 2 + (b.2 - a.2) ^ 2)

/-- The scan loop of `rdp`: iterates over the interior points (at indices starting
from `i`), tracking `(index, maxDist)` with strict `>` updates (first maximum wins),
exactly as the source's `for` loop over `i = 1 .. n-2`. -/
def scanMax (a b : Point) : List Point → ℕ → ℕ × ℝ → ℕ × ℝ
  | [], _, acc => acc
  | p :: rest, i, acc =>
      scanMax a b rest (i + 1)
        (if pointToLineDist p a b > acc.2 then (i, pointToLineDist p a b) else acc)

/-- The `(index, maxDist)` pair computed by `rdp`'s scan over the interior points. -/
def rdpScan (pts : List Point) : ℕ × ℝ :=
  scanMax pts.headI pts.getLastI ((pts.drop 1).dropLast) 1 (0, 0)

/-- Ramer-Douglas-Peucker simplification, as in the source: length ≤ 2 is returned
unchanged; otherwise the farthest interior point from the chord is found and, if its
distance exceeds `epsilon`, the two halves (`slice(0, index+1)`, `slice(index)`) are
simplified and concatenated dropping the duplicated split point.

The guard's extra conjuncts on the index are automatic whenever
`(rdpScan pts).2 > epsilon ∧ 0 ≤ epsilon` (`scanMax` only stores interior indices,
and stores a positive distance only after an update): every claim about `rdp`
assumes `0 ≤ epsilon`, where this definition agrees with the JS code. -/
def rdp (pts : List Point) (epsilon : ℝ) : List Point :=
  if pts.length ≤ 2 then pts
  else if _h2 : 1 ≤ (rdpScan pts).1 ∧ (rdpScan pts).1 + 1 < pts.length ∧
      (rdpScan pts).2 > epsilon then
    (rdp (pts.take ((rdpScan pts).1 + 1)) epsilon).dropLast ++
      rdp (pts.drop (rdpScan pts).1) epsilon
  else [pts.headI, pts.getLastI]
termination_by pts.length
decreasing_by
  · simp only [List.length_take]; omega
  · simp only [List.length_drop]; omega

/-- The sort key of `orderByAngle`: the angle of `p` as seen from `c`. -/
def angleKey (c p : Point) : ℝ := atan2 (p.2 - c.2) (p.1 - c.1)

/-- `orderByAngle(pts)`: stable sort of the points by angle around the centroid
(the source sorts with the comparator `atan2(a) - atan2(b)`). -/
def orderByAngle (pts : List Point) : List Point :=
  List.insertionSort (fun a b => angleKey (centroid pts) a ≤ angleKey (centroid pts) b) pts

/-- Fold for the source's `Math.min(...)` / bbox minimum over a nonempty list
(the `Infinity` initialisation means the fold effectively starts at the first value). -/
def foldMin : List ℝ → ℝ
  | [] => 0
  | x :: xs => xs.foldl min x

/-- Fold for the source's `Math.max(...)` / bbox maximum over a nonempty list. -/
def foldMax : List ℝ → ℝ
  | [] => 0
  | x :: xs => xs.foldl max x

/-- `bbox(pts).w`. -/
def bboxW (pts : List Point) : ℝ := foldMax (pts.map Prod.fst) - foldMin (pts.map Prod.fst)

/-- `bbox(pts).h`. -/
def bboxH (pts : List Point) : ℝ := foldMax (pts.map Prod.snd) - foldMin (pts.map Prod.snd)

/-- `polygonArea(pts)`: absolute shoelace sum over the given order, 0 for < 3 points. -/
def polygonArea (pts : List Point) : ℝ :=
  if pts.length < 3 then 0
  else |((pts.zip (pts.rotate 1)).map fun ab => ab.1.1 * ab.2.2 - ab.1.2 * ab.2.1).sum| / 2

/-- The hull `cross(o, a, b)` helper of `convexHull`. -/
def cross (o a b : Point) : ℝ := (a.1 - o.1) * (b.2 - o.2) - (a.2 - o.2) * (b.1 - o.1)

/-- The sort order of `convexHull`: `(p1.x - p2.x) || (p1.y - p2.y)`, i.e. by `x`,
ties by `y`. -/
def lexLe (a b : Point) : Prop := a.1 < b.1 ∨ (a.1 = b.1 ∧ a.2 ≤ b.2)

/-- The `while`-pop loop of the monotone chain.  The chain stack is kept top-first:
`st.headI` is the most recently pushed point (`lower[lower.length-1]` in the source). -/
def hullStep (p : Point) : List Point → List Point
  | b :: a :: rest => if cross a b p ≤ 0 then hullStep p (a :: rest) else b :: a :: rest
  | st => st

/-- The `for`-loop of the monotone chain: pop per `hullStep`, then push. -/
def buildLoop : List Point → List Point → List Point
  | [], st => st
  | p :: rest, st => buildLoop rest (p :: hullStep p st)

/-- One monotone chain (in traversal order, first-pushed first). -/
def chainOf (pts : List Point) : List Point := (buildLoop pts []).reverse

/-- `convexHull(points)` (monotone chain): inputs of length ≤ 3 are returned as-is;
otherwise build the lower chain over the `(x, y)`-sorted points and the upper chain
over their reverse, and concatenate, dropping each chain's last point. -/
def convexHull (points : List Point) : List Point :=
  if points.length ≤ 3 then points
  else
    let pts := List.insertionSort lexLe points
    (chainOf pts).dropLast ++ (chainOf pts.reverse).dropLast

/-- `clamp01`. -/
def clamp01 (x : ℝ) : ℝ := max 0 (min 1 x)

/-- `lerp`. -/
def lerp (a b t : ℝ) : ℝ := a + (b - a) * t

/-- JavaScript `Math.round` on reals: round half up, `⌊x + 1/2⌋`. -/
def jround (x : ℝ) : ℤ := ⌊x + 1 / 2⌋

/-- The output record (`RecognizedShape`).  `confidence` is an integer by
construction in the source (every branch rounds); `vertices` is `vertexCount`. -/
structure RecognizedShape where
  type : String
  confidence : ℤ
  vertices : ℕ
  description : String
  points : List Point
  color : String

/-- Mean distance to the centroid (`avgR` of the circle/oval detector). -/
def avgRadius (pts : List Point) : ℝ :=
  ((pts.map fun p => dist p (centroid pts)).sum) / pts.length

/-- Mean relative radius deviation (`avgDev` of the circle/oval detector). -/
def radiusDev (pts : List Point) : ℝ :=
  ((pts.map fun p => |dist p (centroid pts) - avgRadius pts| / avgRadius pts).sum) /
    pts.length

/-- The simplified polygon of the circle/oval detector: `rdp` at
`max(6, 2% · perimeter)`, dropping a closing point within `8% · perimeter`. -/
def coPoly (points : List Point) : List Point :=
  let perim := perimeter points
  let poly := rdp points (max 6 (perim * 0.02))
  if 2 < poly.length ∧ dist poly.headI poly.getLastI < perim * 0.08 then poly.dropLast
  else poly

/-- Aspect ratio `maxSide / max(1, minSide)` of the raw points' bounding box. -/
def aspectRatio (points : List Point) : ℝ :=
  max (bboxW points) (bboxH points) / max 1 (min (bboxW points) (bboxH points))

/-- Circularity `4πA/P²` of the detector: `A` is the shoelace area of the
angularly-ordered simplified polygon, `P` the raw perimeter. -/
def circularity (points : List Point) : ℝ :=
  4 * Real.pi * polygonArea (orderByAngle (coPoly points)) /
    (perimeter points * perimeter points)

/-- The detector's `circleScore`. -/
def circleScoreOf (points : List Point) : ℝ :=
  clamp01 ((circularity points - 0.70) / (0.95 - 0.70)) *
    clamp01 ((1.28 - aspectRatio points) / (1.28 - 1.02)) *
    lerp 0.6 1.0 (clamp01 ((0.30 - radiusDev points) / (0.30 - 0.10)))

/-- The detector's `ovalScore`. -/
def ovalScoreOf (points : List Point) : ℝ :=
  clamp01 ((circularity points - 0.58) / (0.90 - 0.58)) *
    clamp01 ((aspectRatio points - 1.10) / (2.20 - 1.10))

/-- `circleOrOval(points)`: `none` models the `type: null` result; otherwise the
label and the rounded, 99-capped confidence (the `extra` description string is not
modelled).  Guards appear in the source's order. -/
def circleOrOval (points : List Point) : Option (String × ℤ) :=
  if points.length < 10 then none
  else if ¬dist points.headI points.getLastI < max 18 (perimeter points * 0.08) then none
  else if (coPoly points).length < 6 then none
  else if polygonArea (orderByAngle (coPoly points)) ≤ 0 ∨ perimeter points ≤ 0 then none
  else if avgRadius points < 12 then none
  else if circleScoreOf points < 0.18 ∧ ovalScoreOf points < 0.18 then none
  else if ovalScoreOf points ≤ circleScoreOf points then
    some ("CIRCLE", min 99 (jround (60 + circleScoreOf points * 39)))
  else some ("OVAL", min 99 (jround (55 + ovalScoreOf points * 44)))

/-- The simplified polygon of the star detector: `rdp` at `max(5, 1.5% · perimeter)`,
dropping a closing point within `8% · perimeter`. -/
def starPoly (points : List Point) : List Point :=
  let perim := perimeter points
  let poly := rdp points (max 5 (perim * 0.015))
  if 2 < poly.length ∧ dist poly.headI poly.getLastI < perim * 0.08 then poly.dropLast
  else poly

/-- The star detector's result record (`matched` models the source's `match` field,
which is a reserved word in Lean). -/
structure StarRes where
  matched : Bool
  confidence : ℤ
  simplifiedCount : ℕ
  concavityRatio : ℝ

/-- `isStarLike(points)`: concavity check via the hull-area ratio. -/
def isStarLike (points : List Point) : StarRes :=
  if points.length < 20 then ⟨false, 0, 0, 1⟩
  else if (starPoly points).length < 8 then ⟨false, 0, (starPoly points).length, 1⟩
  else
    let poly := orderByAngle (starPoly points)
    let A := polygonArea poly
    if A ≤ 0 then ⟨false, 0, poly.length, 1⟩
    else
      let Ah := polygonArea (convexHull poly)
      if Ah ≤ 0 then ⟨false, 0, poly.length, 1⟩
      else
        let ratio := A / Ah
        let score := clamp01 ((0.92 - ratio) / (0.92 - 0.62))
        if score < 0.28 then ⟨false, 0, poly.length, ratio⟩
        else ⟨true, min 99 (jround (60 + score * 39)), poly.length, ratio⟩

/-- `regularityScore(ordered)`: 1 minus the mean relative side-length deviation
over 0.35, clamped to [0, 1]. -/
def regularityScore (ordered : List Point) : ℝ :=
  if ordered.length < 3 then 0
  else
    let sides := (ordered.zip (ordered.rotate 1)).map fun ab => dist ab.1 ab.2
    let avg := sides.sum / sides.length
    if avg ≤ 0 then 0
    else clamp01 (1 - ((sides.map fun s => |s - avg| / avg).sum / sides.length) / 0.35)

/-- The fixed name table `nameByN` with its `POLYGON (n)` fallback. -/
def polyName (n : ℕ) : String :=
  match n with
  | 5 => "PENTAGON"
  | 6 => "HEXAGON"
  | 7 => "HEPTAGON"
  | 8 => "OCTAGON"
  | 9 => "ENNEAGON"
  | 10 => "DECAGON"
  | _ => "POLYGON (" ++ toString n ++ ")"

/-- The `n === 2` block of `classifyPolygon`. -/
def classify2 (vertices : List Point) : Option RecognizedShape :=
  if dist (vertices.getD 0 default) (vertices.getD 1 default) < 20 then none
  else some ⟨"LINE", 90, 2, "", vertices, "hsla(175, 80%, 50%, 1)"⟩

/-- `ordered[i]` of the 3- and 4-vertex blocks (the angularly ordered vertices). -/
def ordAt (v : List Point) (i : ℕ) : Point := (orderByAngle v).getD i default

/-- The ascending-sorted side lengths of the 3-vertex block
(`[d01, d12, d20].sort((a, b) => a - b)`). -/
def triSides (v : List Point) : List ℝ :=
  List.insertionSort (fun x y : ℝ => x ≤ y)
    [dist (ordAt v 0) (ordAt v 1), dist (ordAt v 1) (ordAt v 2), dist (ordAt v 2) (ordAt v 0)]

/-- `sides[i]` of the 3-vertex block. -/
def triSide (v : List Point) (i : ℕ) : ℝ := (triSides v).getD i 0

/-- The interior angles of the 3-vertex block. -/
def triAngles (v : List Point) : List ℝ :=
  [angleBetween (ordAt v 2) (ordAt v 0) (ordAt v 1),
    angleBetween (ordAt v 0) (ordAt v 1) (ordAt v 2),
    angleBetween (ordAt v 1) (ordAt v 2) (ordAt v 0)]

/-- The `n === 3` block of `classifyPolygon`.  The source's mutable
`subtype`/`conf` pair is modelled by the let-bound pairs `pre`/`fin`. -/
def classify3 (vertices : List Point) : Option RecognizedShape :=
  if triSide vertices 0 < 15 then none
  else
    let sideRatio := triSide vertices 0 / triSide vertices 2
    let pre : String × ℝ :=
      if sideRatio > 0.85 then ("EQUILATERAL TRIANGLE", 85 + sideRatio * 15)
      else if |triSide vertices 0 - triSide vertices 1| / triSide vertices 2 < 0.15 ∨
          |triSide vertices 1 - triSide vertices 2| / triSide vertices 2 < 0.15 then
        ("ISOSCELES TRIANGLE", 80)
      else ("TRIANGLE", 70)
    let fin : String × ℝ :=
      if ∃ a ∈ triAngles vertices, |a - Real.pi / 2| < 0.2 then ("RIGHT TRIANGLE", 85) else pre
    some ⟨fin.1, min 99 (jround fin.2), 3, "", orderByAngle vertices, "hsla(35, 90%, 55%, 1)"⟩

/-- `sides[i]` of the 4-vertex block: the side from `ordered[i]` to `ordered[(i+1)%4]`. -/
def quadSide (v : List Point) (i : ℕ) : ℝ := dist (ordAt v i) (ordAt v ((i + 1) % 4))

/-- `angles[i]` of the 4-vertex block: the angle at `ordered[i]`. -/
def quadAngle (v : List Point) (i : ℕ) : ℝ :=
  angleBetween (ordAt v ((i + 3) % 4)) (ordAt v i) (ordAt v ((i + 1) % 4))

/-- `Math.min(...sides)` of the 4-vertex block. -/
def quadSideMin (v : List Point) : ℝ :=
  min (min (min (quadSide v 0) (quadSide v 1)) (quadSide v 2)) (quadSide v 3)

/-- `Math.max(...sides)` of the 4-vertex block. -/
def quadSideMax (v : List Point) : ℝ :=
  max (max (max (quadSide v 0) (quadSide v 1)) (quadSide v 2)) (quadSide v 3)

/-- `sideRatio` of the 4-vertex block. -/
def quadSideRatio (v : List Point) : ℝ := quadSideMin v / quadSideMax v

/-- `maxAngleDiff` of the 4-vertex block: greatest deviation of an angle from `π/2`. -/
def quadMaxAngleDiff (v : List Point) : ℝ :=
  max (max (max |quadAngle v 0 - Real.pi / 2| |quadAngle v 1 - Real.pi / 2|)
    |quadAngle v 2 - Real.pi / 2|) |quadAngle v 3 - Real.pi / 2|

/-- The `n === 4` block of `classifyPolygon`; note that, unlike the 2- and 3-vertex
blocks, it applies no minimum-side threshold and always returns a shape. -/
def classify4 (vertices : List Point) : RecognizedShape :=
  if quadMaxAngleDiff vertices < 0.35 ∧ quadSideRatio vertices > 0.8 then
    ⟨"SQUARE",
      min 99 (jround (70 + quadSideRatio vertices * 20 + (1 - quadMaxAngleDiff vertices) * 10)),
      4, "", orderByAngle vertices, "hsla(280, 60%, 55%, 1)"⟩
  else if quadMaxAngleDiff vertices < 0.35 then
    ⟨"RECTANGLE", min 99 (jround (75 + (1 - quadMaxAngleDiff vertices / 0.35) * 25)), 4, "",
      orderByAngle vertices, "hsla(210, 70%, 55%, 1)"⟩
  else if quadSideRatio vertices > 0.7 then
    ⟨"DIAMOND", min 99 (jround (65 + quadSideRatio vertices * 30)), 4, "",
      orderByAngle vertices, "hsla(330, 70%, 55%, 1)"⟩
  else ⟨"QUADRILATERAL", 60, 4, "", orderByAngle vertices, "hsla(50, 60%, 50%, 1)"⟩

/-- The `n >= 5` block of `classifyPolygon` (always returns a shape). -/
def classify5plus (vertices : List Point) : RecognizedShape :=
  let n := vertices.length
  let ordered := orderByAngle vertices
  let reg := regularityScore ordered
  ⟨polyName n, min 99 (jround (if n ≤ 10 then 62 + reg * 30 else 50 + reg * 20)), n, "",
    ordered, if n ≤ 6 then "hsla(200, 80%, 55%, 1)" else "hsla(60, 60%, 50%, 1)"⟩

/-- `classifyPolygon(vertices)`: the by-vertex-count classifier; the successive
early-`return` `if` blocks of the source become the nested conditionals here. -/
def classifyPolygon (vertices : List Point) : Option RecognizedShape :=
  if vertices.length = 2 then classify2 vertices
  else if vertices.length = 3 then classify3 vertices
  else if vertices.length = 4 then some (classify4 vertices)
  else if 5 ≤ vertices.length then some (classify5plus vertices)
  else none

/-- `recognizeFromPoints(points)`: the pipeline.  (In the circle/oval branch the
source computes `avgR` only for the description string, which is not modelled.) -/
def recognizeFromPoints (points : List Point) : Option RecognizedShape :=
  if points.length < 2 then none
  else if points.length ≤ 6 then classifyPolygon points
  else
    match circleOrOval points with
    | some tc =>
        some ⟨tc.1, tc.2, 0, "", [centroid points], "hsla(175, 80%, 50%, 1)"⟩
    | none =>
        let star := isStarLike points
        if star.matched then
          let poly := orderByAngle (starPoly points)
          some ⟨"STAR", star.confidence, poly.length, "", poly, "hsla(45, 90%, 60%, 1)"⟩
        else
          let perim := perimeter points
          let simplified := rdp points (max 8 (perim * 0.04))
          let verts :=
            if 2 < simplified.length ∧
                dist simplified.headI simplified.getLastI < perim * 0.1 then
              simplified.dropLast
            else simplified
          classifyPolygon verts

/-- Euclidean distance from `p` to the closed segment `[a, b]` — the metric of the
spec's "within ε of the polyline" phrasing (this is a statement-level definition;
the code itself only ever computes `pointToLineDist`). -/
def distToSegment (p a b : Point) : ℝ :=
  if a = b then dist p a
  else
    let t := clamp01 (((p.1 - a.1) * (b.1 - a.1) + (p.2 - a.2) * (b.2 - a.2)) /
      ((b.1 - a.1) ^ 2 + (b.2 - a.2) ^ 2))
    dist p (a.1 + t * (b.1 - a.1), a.2 + t * (b.2 - a.2))

/-- `Adj l a b`: `a` and `b` are consecutive entries of `l` (`a` at some index `i`,
`b` at `i+1`); the segments of the polyline `l` are exactly its adjacent pairs. -/
def Adj (l : List Point) (a b : Point) : Prop :=
  ∃ i : ℕ, l[i]? = some a ∧ l[i + 1]? = some b

/-! ## Basic facts about the numeric helpers -/

lemma dist_nonneg (a b : Point) : 0 ≤ dist a b := Real.sqrt_nonneg _

lemma clamp01_nonneg (x : ℝ) : 0 ≤ clamp01 x := le_max_left 0 _

lemma clamp01_le_one (x : ℝ) : clamp01 x ≤ 1 := max_le zero_le_one (min_le_left _ _)

lemma jround_ge {n : ℤ} {x : ℝ} (h : (n : ℝ) ≤ x) : n ≤ jround x :=
  Int.le_floor.mpr (by linarith)

lemma confClamp_pos {x : ℝ} (hx : (1 : ℝ) ≤ x) : 0 < min 99 (jround x) := by
  have h1 : (1 : ℤ) ≤ jround x := jround_ge (by push_cast; linarith)
  exact lt_min (by norm_num) (by omega)

lemma confClamp_le (x : ℝ) : min 99 (jround x) ≤ 99 := min_le_left _ _

lemma confClamp_ge {n : ℤ} {x : ℝ} (hn : n ≤ 99) (h : (n : ℝ) ≤ x) :
    n ≤ min 99 (jround x) := le_min hn (jround_ge h)

lemma getD_nonneg {l : List ℝ} (h : ∀ x ∈ l, 0 ≤ x) : ∀ i, 0 ≤ l.getD i 0 := by
  induction l with
  | nil => intro i; simp
  | cons x xs ih =>
    intro i
    cases i with
    | zero => simpa using h x (by simp)
    | succ j => simpa using ih (fun y hy => h y (by simp [hy])) j

lemma regularityScore_nonneg (l : List Point) : 0 ≤ regularityScore l := by
  simp only [regularityScore]
  split
  · exact le_rfl
  split
  · exact le_rfl
  · exact clamp01_nonneg _

lemma circleScoreOf_nonneg (pts : List Point) : 0 ≤ circleScoreOf pts := by
  unfold circleScoreOf
  refine mul_nonneg (mul_nonneg (clamp01_nonneg _) (clamp01_nonneg _)) ?_
  have h := clamp01_nonneg ((0.30 - radiusDev pts) / (0.30 - 0.10))
  unfold lerp
  linarith

lemma ovalScoreOf_nonneg (pts : List Point) : 0 ≤ ovalScoreOf pts :=
  mul_nonneg (clamp01_nonneg _) (clamp01_nonneg _)

lemma triSide_nonneg (v : List Point) (i : ℕ) : 0 ≤ triSide v i := by
  refine getD_nonneg ?_ i
  intro x hx
  rw [triSides, List.mem_insertionSort] at hx
  simp only [List.mem_cons, List.not_mem_nil, or_false] at hx
  rcases hx with rfl | rfl | rfl <;> exact dist_nonneg _ _

/-! ## List helpers -/

lemma length_orderByAngle (pts : List Point) : (orderByAngle pts).length = pts.length :=
  (List.perm_insertionSort _ _).length_eq

lemma head?_take {l : List Point} {n : ℕ} (h : 0 < n) : (l.take n).head? = l.head? := by
  cases l with
  | nil => simp
  | cons a t =>
    cases n with
    | zero => omega
    | succ m => simp

lemma getLast?_drop {l : List Point} {n : ℕ} (h : n < l.length) :
    (l.drop n).getLast? = l.getLast? := by
  have hne : l.drop n ≠ [] := by
    intro hnil
    have := congrArg List.length hnil
    simp only [List.length_drop, List.length_nil] at this
    omega
  conv_rhs => rw [← List.take_append_drop n l]
  exact (List.getLast?_append_of_ne_nil _ hne).symm

lemma head?_dropLast {l : List Point} (h : 2 ≤ l.length) : l.dropLast.head? = l.head? := by
  match l, h with
  | a :: b :: t, _ => simp

lemma head?_eq_some_headI {l : List Point} (h : l ≠ []) : l.head? = some l.headI := by
  cases l with
  | nil => exact absurd rfl h
  | cons a t => rfl

lemma getLast?_cons_ne_nil {a : Point} {t : List Point} (h : t ≠ []) :
    (a :: t).getLast? = t.getLast? := by
  cases t with
  | nil => exact absurd rfl h
  | cons b u => simp

lemma getLast?_eq_some_getLastI {l : List Point} (h : l ≠ []) :
    l.getLast? = some l.getLastI := by
  rw [List.getLastI_eq_getLast?]
  rcases hq : l.getLast? with _ | x
  · rw [List.getLast?_eq_none_iff] at hq
    exact absurd hq h
  · rfl

lemma getLastI_mem {l : List Point} (h : l ≠ []) : l.getLastI ∈ l := by
  have hq := getLast?_eq_some_getLastI h
  obtain ⟨hne, heq⟩ := List.mem_getLast?_eq_getLast (Option.mem_def.mpr hq)
  rw [heq]
  exact List.getLast_mem hne

lemma dropLast_sublist_dropLast {l' l : List Point} (hs : List.Sublist l' l) (hne : l' ≠ [])
    (hl : l'.getLast? = l.getLast?) : List.Sublist l'.dropLast l.dropLast := by
  have hlne : l ≠ [] := by
    intro h
    subst h
    exact hne (List.sublist_nil.mp hs)
  have hs' : List.Sublist l'.reverse l.reverse := hs.reverse
  rcases hr' : l'.reverse with _ | ⟨x, t'⟩
  · exact absurd (by simpa using congrArg List.reverse hr') hne
  rcases hr : l.reverse with _ | ⟨y, t⟩
  · exact absurd (by simpa using congrArg List.reverse hr) hlne
  have hxy : x = y := by
    have h1 : l'.reverse.head? = l.reverse.head? := by
      rw [List.head?_reverse, List.head?_reverse, hl]
    rw [hr', hr] at h1
    simpa using h1
  subst hxy
  rw [hr', hr] at hs'
  have htt : List.Sublist t' t := List.cons_sublist_cons.mp hs'
  have hdl' : l'.dropLast = t'.reverse := by
    have : l' = t'.reverse ++ [x] := by
      have := congrArg List.reverse hr'
      simpa using this
    rw [this, List.dropLast_concat]
  have hdl : l.dropLast = t.reverse := by
    have : l = t.reverse ++ [x] := by
      have := congrArg List.reverse hr
      simpa using this
    rw [this, List.dropLast_concat]
  rw [hdl', hdl]
  exact htt.reverse

lemma dropLast_take {l : List Point} {n : ℕ} (h : n + 1 ≤ l.length) :
    (l.take (n + 1)).dropLast = l.take n := by
  rw [List.dropLast_eq_take, List.length_take, List.take_take]
  congr 1
  omega

/-! ## Structural facts about `rdp` -/

lemma rdp_short {pts : List Point} {ε : ℝ} (h : pts.length ≤ 2) : rdp pts ε = pts := by
  rw [rdp, if_pos h]

lemma rdp_main (N : ℕ) : ∀ (pts : List Point) (ε : ℝ), pts.length ≤ N → 2 ≤ pts.length →
    2 ≤ (rdp pts ε).length ∧ (rdp pts ε).head? = pts.head? ∧
      (rdp pts ε).getLast? = pts.getLast? ∧ List.Sublist (rdp pts ε) pts := by
  induction N with
  | zero => intro pts ε hN h2; omega
  | succ n ih =>
    intro pts ε hN h2
    rw [rdp]
    split
    · exact ⟨h2, rfl, rfl, List.Sublist.refl _⟩
    rename_i hlen
    have hne : pts ≠ [] := by intro hnil; subst hnil; simp at h2
    split
    · rename_i hcond
      obtain ⟨hi1, hilen, _⟩ := hcond
      have hLlen : (pts.take ((rdpScan pts).1 + 1)).length = (rdpScan pts).1 + 1 := by
        rw [List.length_take]; omega
      have hRlen : (pts.drop (rdpScan pts).1).length = pts.length - (rdpScan pts).1 :=
        List.length_drop _ _
      obtain ⟨hL2, hLh, hLl, hLs⟩ :=
        ih (pts.take ((rdpScan pts).1 + 1)) ε (by omega) (by omega)
      obtain ⟨hR2, hRh, hRl, hRs⟩ := ih (pts.drop (rdpScan pts).1) ε (by omega) (by omega)
      have hLdne : (rdp (pts.take ((rdpScan pts).1 + 1)) ε).dropLast ≠ [] := by
        intro hnil
        have := congrArg List.length hnil
        simp only [List.length_dropLast, List.length_nil] at this
        omega
      have hRne : rdp (pts.drop (rdpScan pts).1) ε ≠ [] := by
        intro hnil
        have := congrArg List.length hnil
        simp only [List.length_nil] at this
        omega
      refine ⟨?_, ?_, ?_, ?_⟩
      · rw [List.length_append, List.length_dropLast]
        omega
      · rw [List.head?_append_of_ne_nil _ hLdne, head?_dropLast hL2, hLh,
          head?_take (by omega)]
      · rw [List.getLast?_append_of_ne_nil _ hRne, hRl, getLast?_drop (by omega)]
      · have h1 : List.Sublist (rdp (pts.take ((rdpScan pts).1 + 1)) ε).dropLast
            (pts.take (rdpScan pts).1) := by
          have hdz := dropLast_sublist_dropLast hLs
            (by
              intro hnil
              have := congrArg List.length hnil
              simp only [List.length_nil] at this
              omega)
            (by rw [hLl])
          rwa [dropLast_take (by omega)] at hdz
        have h2s : List.Sublist ((rdp (pts.take ((rdpScan pts).1 + 1)) ε).dropLast ++
            rdp (pts.drop (rdpScan pts).1) ε)
            (pts.take (rdpScan pts).1 ++ pts.drop (rdpScan pts).1) :=
          List.Sublist.append h1 hRs
        rwa [List.take_append_drop] at h2s
    · rcases pts with _ | ⟨a, t⟩
      · exact absurd rfl hne
      have ht : t ≠ [] := by
        intro hnil
        subst hnil
        simp at hlen
      refine ⟨by simp, ?_, ?_, ?_⟩
      · rw [head?_eq_some_headI hne]
        rfl
      · rw [getLast?_eq_some_getLastI hne]
        simp
      · show List.Sublist [(a :: t).headI, (a :: t).getLastI] (a :: t)
        have hgl : (a :: t).getLastI = t.getLastI := by
          rw [List.getLastI_eq_getLast?, List.getLastI_eq_getLast?, getLast?_cons_ne_nil ht]
        rw [hgl]
        show List.Sublist (a :: [t.getLastI]) (a :: t)
        exact List.cons_sublist_cons.mpr (List.singleton_sublist.mpr (getLastI_mem ht))

lemma rdp_spec (pts : List Point) (ε : ℝ) (h2 : 2 ≤ pts.length) :
    2 ≤ (rdp pts ε).length ∧ (rdp pts ε).head? = pts.head? ∧
      (rdp pts ε).getLast? = pts.getLast? ∧ List.Sublist (rdp pts ε) pts :=
  rdp_main pts.length pts ε le_rfl h2

lemma rdp_length_ge_two {pts : List Point} (h : 2 ≤ pts.length) (ε : ℝ) :
    2 ≤ (rdp pts ε).length := (rdp_spec pts ε h).1

lemma starPoly_length {pts : List Point} (h : 2 ≤ pts.length) :
    2 ≤ (starPoly pts).length := by
  have h2 := rdp_length_ge_two h (max 5 (perimeter pts * 0.015))
  simp only [starPoly]
  split
  · rename_i hc
    rw [List.length_dropLast]
    omega
  · exact h2

/-! ## Confidence bounds of the classifier branches -/

lemma classify2_spec {v : List Point} {r : RecognizedShape} (h : classify2 v = some r) :
    r = ⟨"LINE", 90, 2, "", v, "hsla(175, 80%, 50%, 1)"⟩ := by
  unfold classify2 at h
  split at h
  · exact absurd h (by simp)
  · exact (Option.some.inj h).symm

lemma classify3_conf {v : List Point} {r : RecognizedShape} (h : classify3 v = some r) :
    0 < r.confidence ∧ r.confidence ≤ 99 := by
  simp only [classify3] at h
  split at h
  · exact absurd h (by simp)
  rename_i hs0
  rw [Option.some.injEq] at h
  subst h
  refine ⟨confClamp_pos ?_, confClamp_le _⟩
  have h15 : (15 : ℝ) ≤ triSide v 0 := not_lt.mp hs0
  have hratio : 0 ≤ triSide v 0 / triSide v 2 :=
    div_nonneg (by linarith) (triSide_nonneg v 2)
  split
  · norm_num
  split
  · simp only []
    nlinarith
  split
  · norm_num
  · norm_num

lemma quadSideRatio_pos_of_gt {v : List Point} {c : ℝ} (hc : 0 ≤ c)
    (h : quadSideRatio v > c) : 0 ≤ quadSideRatio v := le_trans hc h.le

lemma classify4_conf (v : List Point) :
    0 < (classify4 v).confidence ∧ (classify4 v).confidence ≤ 99 := by
  unfold classify4
  split
  · rename_i hsq
    obtain ⟨hmad, hratio⟩ := hsq
    exact ⟨confClamp_pos (by nlinarith), confClamp_le _⟩
  split
  · rename_i hmad
    have : quadMaxAngleDiff v / 0.35 < 1 := by
      rw [div_lt_one (by norm_num)]; linarith
    exact ⟨confClamp_pos (by nlinarith), confClamp_le _⟩
  split
  · rename_i hratio
    exact ⟨confClamp_pos (by nlinarith), confClamp_le _⟩
  · exact ⟨by norm_num, by norm_num⟩

lemma classify5plus_conf (v : List Point) :
    0 < (classify5plus v).confidence ∧ (classify5plus v).confidence ≤ 99 := by
  unfold classify5plus
  have hreg := regularityScore_nonneg (orderByAngle v)
  refine ⟨confClamp_pos ?_, confClamp_le _⟩
  split <;> nlinarith

lemma classifyPolygon_conf {v : List Point} {r : RecognizedShape}
    (h : classifyPolygon v = some r) : 0 < r.confidence ∧ r.confidence ≤ 99 := by
  unfold classifyPolygon at h
  split at h
  · rw [classify2_spec h]; exact ⟨by norm_num, by norm_num⟩
  split at h
  · exact classify3_conf h
  split at h
  · obtain rfl := (Option.some.inj h).symm; exact classify4_conf v
  split at h
  · obtain rfl := (Option.some.inj h).symm; exact classify5plus_conf v
  · exact absurd h (by simp)

lemma circleOrOval_spec {pts : List Point} {t : String} {c : ℤ}
    (h : circleOrOval pts = some (t, c)) :
    (0 < c ∧ c ≤ 99) ∧ (t = "CIRCLE" ∨ t = "OVAL") := by
  unfold circleOrOval at h
  iterate 6 (split at h; · exact absurd h (by simp))
  have hcs := circleScoreOf_nonneg pts
  have hos := ovalScoreOf_nonneg pts
  split at h <;> rw [Option.some.injEq, Prod.mk.injEq] at h <;>
    obtain ⟨rfl, rfl⟩ := h
  · exact ⟨⟨confClamp_pos (by nlinarith), confClamp_le _⟩, Or.inl rfl⟩
  · exact ⟨⟨confClamp_pos (by nlinarith), confClamp_le _⟩, Or.inr rfl⟩

lemma isStarLike_conf {pts : List Point} {res : StarRes} (hres : isStarLike pts = res)
    (h : res.matched = true) : 0 < res.confidence ∧ res.confidence ≤ 99 := by
  simp only [isStarLike] at hres
  iterate 5 (split at hres; · subst hres; exact absurd h (by simp))
  subst hres
  have := clamp01_nonneg ((0.92 - polygonArea (orderByAngle (starPoly pts)) /
    polygonArea (convexHull (orderByAngle (starPoly pts)))) / (0.92 - 0.62))
  exact ⟨confClamp_pos (by nlinarith), confClamp_le _⟩

/-! ## Shape of the classifier results (for C2) -/

lemma classify3_spec {v : List Point} {r : RecognizedShape} (h : classify3 v = some r) :
    r.points = orderByAngle v ∧ r.vertices = 3 ∧ r.type ≠ "CIRCLE" ∧ r.type ≠ "OVAL" := by
  simp only [classify3] at h
  split at h
  · exact absurd h (by simp)
  rw [Option.some.injEq] at h
  subst h
  refine ⟨rfl, rfl, ?_, ?_⟩ <;>
    · dsimp only
      split
      · show ("RIGHT TRIANGLE" : String) ≠ _
        decide
      split
      · show ("EQUILATERAL TRIANGLE" : String) ≠ _
        decide
      split
      · show ("ISOSCELES TRIANGLE" : String) ≠ _
        decide
      · show ("TRIANGLE" : String) ≠ _
        decide

lemma classify4_spec (v : List Point) :
    (classify4 v).points = orderByAngle v ∧ (classify4 v).vertices = 4 ∧
      (classify4 v).type ≠ "CIRCLE" ∧ (classify4 v).type ≠ "OVAL" := by
  unfold classify4
  split
  · exact ⟨rfl, rfl, by show ("SQUARE" : String) ≠ _; decide,
      by show ("SQUARE" : String) ≠ _; decide⟩
  split
  · exact ⟨rfl, rfl, by show ("RECTANGLE" : String) ≠ _; decide,
      by show ("RECTANGLE" : String) ≠ _; decide⟩
  split
  · exact ⟨rfl, rfl, by show ("DIAMOND" : String) ≠ _; decide,
      by show ("DIAMOND" : String) ≠ _; decide⟩
  · exact ⟨rfl, rfl, by show ("QUADRILATERAL" : String) ≠ _; decide,
      by show ("QUADRILATERAL" : String) ≠ _; decide⟩

lemma polyName_ne (n : ℕ) : polyName n ≠ "CIRCLE" ∧ polyName n ≠ "OVAL" := by
  rw [polyName.eq_def]
  split
  · exact ⟨by decide, by decide⟩
  · exact ⟨by decide, by decide⟩
  · exact ⟨by decide, by decide⟩
  · exact ⟨by decide, by decide⟩
  · exact ⟨by decide, by decide⟩
  · exact ⟨by decide, by decide⟩
  · refine ⟨fun hcon => ?_, fun hcon => ?_⟩
    · have hl := congrArg String.length hcon
      rw [String.length_append, String.length_append] at hl
      have h9 : ("POLYGON (" : String).length = 9 := rfl
      have hp : ((")") : String).length = 1 := rfl
      have hc : (("CIRCLE") : String).length = 6 := rfl
      omega
    · have hl := congrArg String.length hcon
      rw [String.length_append, String.length_append] at hl
      have h9 : ("POLYGON (" : String).length = 9 := rfl
      have hp : ((")") : String).length = 1 := rfl
      have hc : (("OVAL") : String).length = 4 := rfl
      omega

lemma classify5plus_spec (v : List Point) :
    (classify5plus v).points = orderByAngle v ∧ (classify5plus v).vertices = v.length ∧
      (classify5plus v).type = polyName v.length := ⟨rfl, rfl, rfl⟩

lemma classifyPolygon_spec {v : List Point} {r : RecognizedShape}
    (h : classifyPolygon v = some r) :
    r.points ≠ [] ∧ r.vertices = r.points.length ∧ r.type ≠ "CIRCLE" ∧ r.type ≠ "OVAL" := by
  unfold classifyPolygon at h
  split at h
  · rename_i h2
    rw [classify2_spec h]
    refine ⟨?_, ?_, by show ("LINE" : String) ≠ _; decide, by show ("LINE" : String) ≠ _; decide⟩
    · intro hnil
      have hv : v = [] := hnil
      rw [hv] at h2
      simp at h2
    · show (2 : ℕ) = v.length
      omega
  split at h
  · rename_i h3
    obtain ⟨hp, hv, hc, ho⟩ := classify3_spec h
    refine ⟨?_, ?_, hc, ho⟩
    · intro hnil
      rw [hp] at hnil
      have := congrArg List.length hnil
      rw [length_orderByAngle] at this
      simp [h3] at this
    · rw [hv, hp, length_orderByAngle, h3]
  split at h
  · rename_i h4
    obtain rfl := (Option.some.inj h).symm
    obtain ⟨hp, hv, hc, ho⟩ := classify4_spec v
    refine ⟨?_, ?_, hc, ho⟩
    · intro hnil
      rw [hp] at hnil
      have := congrArg List.length hnil
      rw [length_orderByAngle] at this
      simp [h4] at this
    · rw [hv, hp, length_orderByAngle, h4]
  split at h
  · rename_i h5
    obtain rfl := (Option.some.inj h).symm
    obtain ⟨hp, hv, ht⟩ := classify5plus_spec v
    refine ⟨?_, ?_, ?_, ?_⟩
    · intro hnil
      rw [hp] at hnil
      have := congrArg List.length hnil
      rw [length_orderByAngle] at this
      simp only [List.length_nil] at this
      omega
    · rw [hv, hp, length_orderByAngle]
    · rw [ht]; exact (polyName_ne _).1
    · rw [ht]; exact (polyName_ne _).2
  · exact absurd h (by simp)

/-! ## C1: confidence bounds of the pipeline -/

/-- **C1.** For every input point list, if `recognizeFromPoints` returns a result then
its confidence is an integer (by the `ℤ` type of the field) with `0 < confidence ≤ 99`
— never 100; if no result is returned (`none`), no confidence is reported at all. -/
theorem C1_confidence_bounds (P : List Point) (r : RecognizedShape)
    (h : recognizeFromPoints P = some r) : 0 < r.confidence ∧ r.confidence ≤ 99 := by
  simp only [recognizeFromPoints] at h
  split at h
  · exact absurd h (by simp)
  split at h
  · exact classifyPolygon_conf h
  · split at h
    · rename_i tc heq
      rw [Option.some.injEq] at h
      subst h
      simpa using (circleOrOval_spec (t := tc.1) (c := tc.2) (by simpa using heq)).1
    · split at h
      · rename_i hmat
        rw [Option.some.injEq] at h
        subst h
        simpa using isStarLike_conf rfl hmat
      · exact classifyPolygon_conf h

/-! ## Concrete evaluation helpers -/

lemma dist_eval {x1 y1 x2 y2 d : ℝ} (hd : 0 ≤ d)
    (h : (x1 - x2) ^ 2 + (y1 - y2) ^ 2 = d ^ 2) : dist (x1, y1) (x2, y2) = d := by
  unfold dist
  rw [h, Real.sqrt_sq hd]

/-- The pipeline on the two-point line `[(0,0),(50,0)]` returns the LINE result. -/
lemma recognize_line_eval :
    recognizeFromPoints [((0 : ℝ), (0 : ℝ)), ((50 : ℝ), (0 : ℝ))] =
      some ⟨"LINE", 90, 2, "", [((0 : ℝ), (0 : ℝ)), ((50 : ℝ), (0 : ℝ))],
        "hsla(175, 80%, 50%, 1)"⟩ := by
  have hd : dist ((0 : ℝ), (0 : ℝ)) ((50 : ℝ), (0 : ℝ)) = 50 :=
    dist_eval (by norm_num) (by norm_num)
  unfold recognizeFromPoints
  rw [if_neg (by simp), if_pos (by simp)]
  unfold classifyPolygon
  rw [if_pos (by simp)]
  unfold classify2
  rw [show ([((0 : ℝ), (0 : ℝ)), ((50 : ℝ), (0 : ℝ))].getD 0 default) = ((0 : ℝ), (0 : ℝ))
      from rfl,
    show ([((0 : ℝ), (0 : ℝ)), ((50 : ℝ), (0 : ℝ))].getD 1 default) = ((50 : ℝ), (0 : ℝ))
      from rfl, hd, if_neg (by norm_num)]

/-- Witness for C1 at the two-point line (discharging the `= some r` hypothesis). -/
theorem C1_witness :
    0 < (⟨"LINE", 90, 2, "", [((0 : ℝ), (0 : ℝ)), ((50 : ℝ), (0 : ℝ))],
        "hsla(175, 80%, 50%, 1)"⟩ : RecognizedShape).confidence ∧
      (⟨"LINE", 90, 2, "", [((0 : ℝ), (0 : ℝ)), ((50 : ℝ), (0 : ℝ))],
        "hsla(175, 80%, 50%, 1)"⟩ : RecognizedShape).confidence ≤ 99 :=
  C1_confidence_bounds _ _ recognize_line_eval

/-! ## C2: invariants of the returned record -/

/-- **C2.** If `recognizeFromPoints` returns a result, its `points` list is non-empty;
when the type is CIRCLE or OVAL, `vertices = 0` and `points` is the single-element
centroid list; for every other type, `vertices` equals `points.length`. -/
theorem C2_result_invariants (P : List Point) (r : RecognizedShape)
    (h : recognizeFromPoints P = some r) :
    r.points ≠ [] ∧
      ((r.type = "CIRCLE" ∨ r.type = "OVAL") → r.vertices = 0 ∧ r.points = [centroid P]) ∧
      (¬(r.type = "CIRCLE" ∨ r.type = "OVAL") → r.vertices = r.points.length) := by
  simp only [recognizeFromPoints] at h
  split at h
  · exact absurd h (by simp)
  rename_i hP2
  split at h
  · obtain ⟨hne, hvl, hc, ho⟩ := classifyPolygon_spec h
    exact ⟨hne, fun hco => absurd hco (by simp [hc, ho]), fun _ => hvl⟩
  rename_i hP6
  split at h
  · rename_i tc heq
    rw [Option.some.injEq] at h
    subst h
    refine ⟨by simp, fun _ => ⟨rfl, rfl⟩, fun hn => ?_⟩
    exact absurd ((circleOrOval_spec (t := tc.1) (c := tc.2) (by simpa using heq)).2) hn
  · split at h
    · rename_i hmat
      rw [Option.some.injEq] at h
      subst h
      refine ⟨?_, fun hco => absurd hco
        (by show ¬(("STAR" : String) = "CIRCLE" ∨ ("STAR" : String) = "OVAL"); decide),
        fun _ => rfl⟩
      intro hnil
      have hlen := congrArg List.length hnil
      rw [length_orderByAngle] at hlen
      have h2 := @starPoly_length P (by omega)
      simp only [List.length_nil] at hlen
      omega
    · obtain ⟨hne, hvl, hc, ho⟩ := classifyPolygon_spec h
      exact ⟨hne, fun hco => absurd hco (by simp [hc, ho]), fun _ => hvl⟩

/-- Witness for C2 at the two-point line. -/
theorem C2_witness :
    (⟨"LINE", 90, 2, "", [((0 : ℝ), (0 : ℝ)), ((50 : ℝ), (0 : ℝ))],
        "hsla(175, 80%, 50%, 1)"⟩ : RecognizedShape).points ≠ [] ∧
      (((⟨"LINE", 90, 2, "", [((0 : ℝ), (0 : ℝ)), ((50 : ℝ), (0 : ℝ))],
          "hsla(175, 80%, 50%, 1)"⟩ : RecognizedShape).type = "CIRCLE" ∨
        (⟨"LINE", 90, 2, "", [((0 : ℝ), (0 : ℝ)), ((50 : ℝ), (0 : ℝ))],
          "hsla(175, 80%, 50%, 1)"⟩ : RecognizedShape).type = "OVAL") →
        (⟨"LINE", 90, 2, "", [((0 : ℝ), (0 : ℝ)), ((50 : ℝ), (0 : ℝ))],
          "hsla(175, 80%, 50%, 1)"⟩ : RecognizedShape).vertices = 0 ∧
        (⟨"LINE", 90, 2, "", [((0 : ℝ), (0 : ℝ)), ((50 : ℝ), (0 : ℝ))],
          "hsla(175, 80%, 50%, 1)"⟩ : RecognizedShape).points =
          [centroid [((0 : ℝ), (0 : ℝ)), ((50 : ℝ), (0 : ℝ))]]) ∧
      (¬((⟨"LINE", 90, 2, "", [((0 : ℝ), (0 : ℝ)), ((50 : ℝ), (0 : ℝ))],
          "hsla(175, 80%, 50%, 1)"⟩ : RecognizedShape).type = "CIRCLE" ∨
        (⟨"LINE", 90, 2, "", [((0 : ℝ), (0 : ℝ)), ((50 : ℝ), (0 : ℝ))],
          "hsla(175, 80%, 50%, 1)"⟩ : RecognizedShape).type = "OVAL") →
        (⟨"LINE", 90, 2, "", [((0 : ℝ), (0 : ℝ)), ((50 : ℝ), (0 : ℝ))],
          "hsla(175, 80%, 50%, 1)"⟩ : RecognizedShape).vertices =
          (⟨"LINE", 90, 2, "", [((0 : ℝ), (0 : ℝ)), ((50 : ℝ), (0 : ℝ))],
            "hsla(175, 80%, 50%, 1)"⟩ : RecognizedShape).points.length) :=
  C2_result_invariants _ _ recognize_line_eval

/-! ## C3: the claimed 35-pixel minimum quad side does not exist in the code -/

/-- **C3 (amended).** The 4-vertex branch applies no minimum-side threshold at all:
for every 4-point input (explicit 4-point mode, and likewise any freehand path that
simplifies to 4 vertices, which is classified by the same `classifyPolygon` call),
recognition returns a match — even when the shortest side is below 35 pixels. -/
theorem C3_amended_no_quad_min_side (P : List Point) (h4 : P.length = 4) :
    (classifyPolygon P).isSome = true ∧ (recognizeFromPoints P).isSome = true := by
  have hc : classifyPolygon P = some (classify4 P) := by
    unfold classifyPolygon
    rw [if_neg (by omega), if_neg (by omega), if_pos h4]
  refine ⟨by rw [hc]; rfl, ?_⟩
  unfold recognizeFromPoints
  rw [if_neg (by omega), if_pos (by omega), hc]
  rfl

/-- Witness for the amended C3 at a tiny 10-pixel square. -/
theorem C3_witness :
    (classifyPolygon [((0 : ℝ), (0 : ℝ)), ((10 : ℝ), (0 : ℝ)), ((10 : ℝ), (10 : ℝ)),
        ((0 : ℝ), (10 : ℝ))]).isSome = true ∧
      (recognizeFromPoints [((0 : ℝ), (0 : ℝ)), ((10 : ℝ), (0 : ℝ)), ((10 : ℝ), (10 : ℝ)),
        ((0 : ℝ), (10 : ℝ))]).isSome = true :=
  C3_amended_no_quad_min_side _ (by simp)

/-- **C3 is false as stated**: a square of side 10 (every pairwise distance, hence
every side, is below the claimed 35-pixel contractual minimum) is still recognized. -/
theorem C3_counterexample :
    (recognizeFromPoints [((0 : ℝ), (0 : ℝ)), ((10 : ℝ), (0 : ℝ)), ((10 : ℝ), (10 : ℝ)),
        ((0 : ℝ), (10 : ℝ))]).isSome = true ∧
      ∀ a ∈ [((0 : ℝ), (0 : ℝ)), ((10 : ℝ), (0 : ℝ)), ((10 : ℝ), (10 : ℝ)),
        ((0 : ℝ), (10 : ℝ))],
        ∀ b ∈ [((0 : ℝ), (0 : ℝ)), ((10 : ℝ), (0 : ℝ)), ((10 : ℝ), (10 : ℝ)),
          ((0 : ℝ), (10 : ℝ))], dist a b < 35 := by
  constructor
  · unfold recognizeFromPoints
    rw [if_neg (by simp), if_pos (by simp)]
    unfold classifyPolygon
    rw [if_neg (by simp), if_neg (by simp), if_pos (by simp)]
    rfl
  · intro a ha b hb
    fin_cases ha <;> fin_cases hb <;>
      · unfold dist
        exact (Real.sqrt_lt' (by norm_num)).mpr (by norm_num)

/-! ## C10: 5- and 6-point inputs always match, with no size threshold -/

/-- **C10.** Every 5-point input yields a PENTAGON and every 6-point input a HEXAGON,
with confidence at least 62, regardless of size or degeneracy (no minimum side-length
or size threshold exists in the `n ≥ 5` branch, even for coincident points). -/
theorem C10_pentagon_hexagon_always (P : List Point) :
    (P.length = 5 → ∃ r, recognizeFromPoints P = some r ∧ r.type = "PENTAGON" ∧
      62 ≤ r.confidence) ∧
    (P.length = 6 → ∃ r, recognizeFromPoints P = some r ∧ r.type = "HEXAGON" ∧
      62 ≤ r.confidence) := by
  have hreg := regularityScore_nonneg (orderByAngle P)
  have hpipe : ∀ h5 : 5 ≤ P.length, ∀ _ : P.length ≤ 6,
      recognizeFromPoints P = some (classify5plus P) := by
    intro h5 h6
    unfold recognizeFromPoints classifyPolygon
    rw [if_neg (by omega), if_pos (by omega), if_neg (by omega), if_neg (by omega),
      if_neg (by omega), if_pos (by omega)]
  have hconf : ∀ _ : P.length ≤ 10, 62 ≤ (classify5plus P).confidence := by
    intro h10
    show 62 ≤ min 99 (jround (if P.length ≤ 10 then 62 + regularityScore (orderByAngle P) * 30
      else 50 + regularityScore (orderByAngle P) * 20))
    rw [if_pos h10]
    exact confClamp_ge (by norm_num) (by push_cast; linarith)
  constructor
  · intro h5
    refine ⟨classify5plus P, hpipe (by omega) (by omega), ?_, hconf (by omega)⟩
    show polyName P.length = "PENTAGON"
    rw [h5]
    rfl
  · intro h6
    refine ⟨classify5plus P, hpipe (by omega) (by omega), ?_, hconf (by omega)⟩
    show polyName P.length = "HEXAGON"
    rw [h6]
    rfl

/-- Witness for C10 at fully degenerate inputs: 5 and 6 coincident points. -/
theorem C10_witness :
    (∃ r, recognizeFromPoints (List.replicate 5 ((0 : ℝ), (0 : ℝ))) = some r ∧
      r.type = "PENTAGON" ∧ 62 ≤ r.confidence) ∧
    (∃ r, recognizeFromPoints (List.replicate 6 ((0 : ℝ), (0 : ℝ))) = some r ∧
      r.type = "HEXAGON" ∧ 62 ≤ r.confidence) :=
  ⟨(C10_pentagon_hexagon_always _).1 (by simp),
    (C10_pentagon_hexagon_always _).2 (by simp)⟩

/-! ## C6: `rdp` keeps a subsequence with the original endpoints -/

/-- **C6.** For every non-empty point list `P` and tolerance `ε ≥ 0`, `rdp(P, ε)` is a
subsequence of `P` whose first element is `P`'s first point and whose last element is
`P`'s last point. -/
theorem C6_rdp_subsequence_endpoints (P : List Point) (ε : ℝ) (_hP : P ≠ []) (_hε : 0 ≤ ε) :
    List.Sublist (rdp P ε) P ∧ (rdp P ε).head? = P.head? ∧
      (rdp P ε).getLast? = P.getLast? := by
  rcases le_or_lt P.length 1 with h1 | h1
  · rw [rdp_short (by omega)]
    exact ⟨List.Sublist.refl _, rfl, rfl⟩
  · obtain ⟨-, h2, h3, h4⟩ := rdp_spec P ε (by omega)
    exact ⟨h4, h2, h3⟩

/-! ## C5: RDP fidelity -/

lemma scanMax_snd_mono (a b : Point) :
    ∀ (l : List Point) (i : ℕ) (acc : ℕ × ℝ), acc.2 ≤ (scanMax a b l i acc).2 := by
  intro l
  induction l with
  | nil => intro i acc; exact le_rfl
  | cons p rest ih =>
    intro i acc
    rw [scanMax]
    refine le_trans ?_ (ih (i + 1) _)
    split
    · rename_i hgt
      exact le_of_lt hgt
    · exact le_rfl

lemma scanMax_ub (a b : Point) :
    ∀ (l : List Point) (i : ℕ) (acc : ℕ × ℝ) (q : Point), q ∈ l →
      pointToLineDist q a b ≤ (scanMax a b l i acc).2 := by
  intro l
  induction l with
  | nil => intro i acc q hq; simp at hq
  | cons p rest ih =>
    intro i acc q hq
    rw [scanMax]
    rcases List.mem_cons.mp hq with rfl | hq'
    · refine le_trans ?_ (scanMax_snd_mono a b rest (i + 1) _)
      split
      · exact le_rfl
      · rename_i hng
        exact not_lt.mp hng
    · exact ih (i + 1) _ q hq'

lemma scanMax_cases (a b : Point) :
    ∀ (l : List Point) (i : ℕ) (acc : ℕ × ℝ),
      scanMax a b l i acc = acc ∨
        (i ≤ (scanMax a b l i acc).1 ∧ (scanMax a b l i acc).1 + 1 ≤ i + l.length) := by
  intro l
  induction l with
  | nil => intro i acc; exact Or.inl rfl
  | cons p rest ih =>
    intro i acc
    rw [scanMax]
    rcases ih (i + 1)
        (if pointToLineDist p a b > acc.2 then (i, pointToLineDist p a b) else acc) with
      heq | ⟨h1, h2⟩
    · rw [heq]
      split
      · right
        simp only [List.length_cons]
        omega
      · exact Or.inl rfl
    · right
      simp only [List.length_cons]
      omega

lemma rdpScan_bounds {pts : List Point} {ε : ℝ} (hε : 0 ≤ ε) (hgt : (rdpScan pts).2 > ε)
    (hlen : 3 ≤ pts.length) : 1 ≤ (rdpScan pts).1 ∧ (rdpScan pts).1 + 1 < pts.length := by
  unfold rdpScan at hgt ⊢
  rcases scanMax_cases pts.headI pts.getLastI ((pts.drop 1).dropLast) 1 (0, 0) with
    heq | ⟨h1, h2⟩
  · rw [heq] at hgt
    have hlt : (0 : ℝ) > ε := hgt
    linarith
  · have hl : ((pts.drop 1).dropLast).length = pts.length - 1 - 1 := by
      rw [List.length_dropLast, List.length_drop]
    omega

lemma pointToLineDist_nonneg (p a b : Point) : 0 ≤ pointToLineDist p a b := by
  unfold pointToLineDist
  split
  · exact dist_nonneg _ _
  · exact div_nonneg (abs_nonneg _) (Real.sqrt_nonneg _)

lemma pointToLineDist_left (a b : Point) : pointToLineDist a a b = 0 := by
  unfold pointToLineDist
  split
  · unfold dist
    simp
  · rw [show (a.1 - a.1) * (b.2 - a.2) - (a.2 - a.2) * (b.1 - a.1) = 0 by ring, abs_zero,
      zero_div]

lemma pointToLineDist_right (a b : Point) : pointToLineDist b a b = 0 := by
  unfold pointToLineDist
  split
  · rename_i hz
    exact hz
  · rw [show (b.1 - a.1) * (b.2 - a.2) - (b.2 - a.2) * (b.1 - a.1) = 0 by ring, abs_zero,
      zero_div]

lemma mem_decomp {pts : List Point} (h2 : 2 ≤ pts.length) {p : Point} (hp : p ∈ pts) :
    p = pts.headI ∨ p ∈ (pts.drop 1).dropLast ∨ p = pts.getLastI := by
  rcases pts with _ | ⟨a, t⟩
  · simp at hp
  have ht : t ≠ [] := by
    intro h
    rw [h] at h2
    simp at h2
  rcases List.mem_cons.mp hp with rfl | hpt
  · exact Or.inl rfl
  · have hdec := List.dropLast_append_getLast ht
    rw [← hdec] at hpt
    rcases List.mem_append.mp hpt with h1 | h1
    · right; left
      simpa using h1
    · right; right
      have hpl : p = t.getLast ht := by simpa using h1
      rw [hpl, List.getLastI_eq_getLast?, getLast?_cons_ne_nil ht,
        List.getLast?_eq_getLast_of_ne_nil ht]

lemma Adj_append_right {L R : List Point} {x y : Point} (h : Adj R x y) :
    Adj (L ++ R) x y := by
  obtain ⟨i, h1, h2⟩ := h
  refine ⟨L.length + i, ?_, ?_⟩
  · rw [List.getElem?_append_right (by omega)]
    simpa using h1
  · rw [List.getElem?_append_right (by omega)]
    have hidx : L.length + i + 1 - L.length = i + 1 := by omega
    rw [hidx]
    exact h2

lemma Adj_glue {L R : List Point} {x y : Point}
    (hLR : L.getLast? = R.head?) (h : Adj L x y) : Adj (L.dropLast ++ R) x y := by
  obtain ⟨i, h1, h2⟩ := h
  have hR0 : R[0]? = R.head? := by cases R <;> simp
  have hi1 : i + 1 < L.length := by
    by_contra hcon
    rw [List.getElem?_eq_none (by omega)] at h2
    exact Option.noConfusion h2
  rcases Nat.lt_or_ge (i + 1) (L.length - 1) with hlt | hge
  · refine ⟨i, ?_, ?_⟩
    · rw [List.getElem?_append_left (by rw [List.length_dropLast]; omega),
        List.getElem?_dropLast, if_pos (by omega)]
      exact h1
    · rw [List.getElem?_append_left (by rw [List.length_dropLast]; omega),
        List.getElem?_dropLast, if_pos (by omega)]
      exact h2
  · have hieq : i + 1 = L.length - 1 := by omega
    refine ⟨i, ?_, ?_⟩
    · rw [List.getElem?_append_left (by rw [List.length_dropLast]; omega),
        List.getElem?_dropLast, if_pos (by omega)]
      exact h1
    · rw [List.getElem?_append_right (by rw [List.length_dropLast]; omega)]
      have hidx : i + 1 - (L.dropLast).length = 0 := by
        rw [List.length_dropLast]
        omega
      rw [hidx, hR0, ← hLR, List.getLast?_eq_getElem?, ← hieq]
      exact h2

lemma rdp_line_fid (N : ℕ) : ∀ (pts : List Point) (ε : ℝ), pts.length ≤ N → 0 ≤ ε →
    2 ≤ pts.length → ∀ p ∈ pts,
      ∃ a b, Adj (rdp pts ε) a b ∧ pointToLineDist p a b ≤ ε := by
  induction N with
  | zero => intro pts ε h1 _ h2; omega
  | succ n ih =>
    intro pts ε hN hε h2 p hp
    rw [rdp]
    split
    · rename_i hle
      rcases pts with _ | ⟨a, t⟩
      · simp at h2
      rcases t with _ | ⟨b, u⟩
      · simp at h2
      rcases u with _ | ⟨c, w⟩
      · rcases (show p = a ∨ p = b by simpa using hp) with hpe | hpe
        · exact ⟨a, b, ⟨0, rfl, rfl⟩, by rw [hpe, pointToLineDist_left]; exact hε⟩
        · exact ⟨a, b, ⟨0, rfl, rfl⟩, by rw [hpe, pointToLineDist_right]; exact hε⟩
      · simp at hle
    · rename_i hlen
      split
      · rename_i hcond
        obtain ⟨hi1, hilen, hgt⟩ := hcond
        have hsplit : p ∈ pts.take ((rdpScan pts).1 + 1) ∨ p ∈ pts.drop (rdpScan pts).1 := by
          conv at hp => rw [← List.take_append_drop ((rdpScan pts).1) pts]
          rcases List.mem_append.mp hp with h | h
          · left
            have htt : pts.take (rdpScan pts).1 =
                (pts.take ((rdpScan pts).1 + 1)).take (rdpScan pts).1 := by
              rw [List.take_take]
              congr 1
              omega
            rw [htt] at h
            exact List.mem_of_mem_take h
          · right
            exact h
        have hjunction : (rdp (pts.take ((rdpScan pts).1 + 1)) ε).getLast? =
            (rdp (pts.drop (rdpScan pts).1) ε).head? := by
          have hT := rdp_spec (pts.take ((rdpScan pts).1 + 1)) ε
            (by rw [List.length_take]; omega)
          have hD := rdp_spec (pts.drop (rdpScan pts).1) ε (by rw [List.length_drop]; omega)
          rw [hT.2.2.1, hD.2.1, List.getLast?_eq_getElem?, List.head?_drop, List.length_take]
          have hmin : min ((rdpScan pts).1 + 1) pts.length - 1 = (rdpScan pts).1 := by
            omega
          rw [hmin]
          exact List.getElem?_take_of_lt (by omega)
        rcases hsplit with hmem | hmem
        · obtain ⟨a, b, hadj, hd⟩ := ih (pts.take ((rdpScan pts).1 + 1)) ε
            (by rw [List.length_take]; omega) hε (by rw [List.length_take]; omega) p hmem
          exact ⟨a, b, Adj_glue hjunction hadj, hd⟩
        · obtain ⟨a, b, hadj, hd⟩ := ih (pts.drop (rdpScan pts).1) ε
            (by rw [List.length_drop]; omega) hε (by rw [List.length_drop]; omega) p hmem
          exact ⟨a, b, Adj_append_right hadj, hd⟩
      · rename_i hcond
        have hm2 : (rdpScan pts).2 ≤ ε := by
          by_contra hcon
          push_neg at hcon
          obtain ⟨hb1, hb2⟩ := rdpScan_bounds hε hcon (by omega)
          exact hcond ⟨hb1, hb2, hcon⟩
        rcases mem_decomp (by omega) hp with rfl | hmem | rfl
        · exact ⟨pts.headI, pts.getLastI, ⟨0, rfl, rfl⟩,
            by rw [pointToLineDist_left]; exact hε⟩
        · refine ⟨pts.headI, pts.getLastI, ⟨0, rfl, rfl⟩, le_trans ?_ hm2⟩
          exact scanMax_ub _ _ _ _ _ p hmem
        · exact ⟨pts.headI, pts.getLastI, ⟨0, rfl, rfl⟩,
            by rw [pointToLineDist_right]; exact hε⟩

/-- **C5 (amended).** For every point list `P` with at least two points and every
`ε ≥ 0`, every point of `P` lies within `ε` of the *infinite line* through the
endpoints of some segment of the polyline `rdp(P, ε)` — the perpendicular distance
`pointToLineDist` that the algorithm itself uses.  (The original claim, with distance
measured to the *segments* of the polyline, is false: see `C5_counterexample`.) -/
theorem C5_amended_rdp_line_fidelity (P : List Point) (ε : ℝ) (hε : 0 ≤ ε)
    (h2 : 2 ≤ P.length) :
    ∀ p ∈ P, ∃ a b, Adj (rdp P ε) a b ∧ pointToLineDist p a b ≤ ε :=
  rdp_line_fid P.length P ε le_rfl hε h2

/-- Witness for the amended C5 at `P = [(0,0),(-10,1),(1,0)]`, `ε = 1`. -/
theorem C5_witness :
    ((0 : ℝ) ≤ 1) ∧
      2 ≤ [((0 : ℝ), (0 : ℝ)), ((-10 : ℝ), (1 : ℝ)), ((1 : ℝ), (0 : ℝ))].length ∧
      ∀ p ∈ [((0 : ℝ), (0 : ℝ)), ((-10 : ℝ), (1 : ℝ)), ((1 : ℝ), (0 : ℝ))],
        ∃ a b, Adj (rdp [((0 : ℝ), (0 : ℝ)), ((-10 : ℝ), (1 : ℝ)), ((1 : ℝ), (0 : ℝ))] 1) a b ∧
          pointToLineDist p a b ≤ 1 :=
  ⟨by norm_num, by simp,
    C5_amended_rdp_line_fidelity _ 1 (by norm_num) (by simp)⟩

lemma ptld_cex :
    pointToLineDist ((-10 : ℝ), (1 : ℝ)) ((0 : ℝ), (0 : ℝ)) ((1 : ℝ), (0 : ℝ)) = 1 := by
  unfold pointToLineDist
  norm_num

/-- `rdp` on the counterexample input collapses to the chord `[(0,0),(1,0)]`. -/
lemma rdp_cex_eval :
    rdp [((0 : ℝ), (0 : ℝ)), ((-10 : ℝ), (1 : ℝ)), ((1 : ℝ), (0 : ℝ))] 1 =
      [((0 : ℝ), (0 : ℝ)), ((1 : ℝ), (0 : ℝ))] := by
  have hm : (rdpScan [((0 : ℝ), (0 : ℝ)), ((-10 : ℝ), (1 : ℝ)), ((1 : ℝ), (0 : ℝ))]).2 = 1 := by
    show (scanMax ((0 : ℝ), (0 : ℝ)) ((1 : ℝ), (0 : ℝ)) [((-10 : ℝ), (1 : ℝ))] 1 (0, 0)).2 = 1
    rw [scanMax, if_pos (by rw [ptld_cex]; norm_num), scanMax]
    exact ptld_cex
  rw [rdp, if_neg (by simp), dif_neg]
  · rfl
  · intro hcon
    rw [hm] at hcon
    exact absurd hcon.2.2 (by norm_num)

lemma distToSeg_cex :
    distToSegment ((-10 : ℝ), (1 : ℝ)) ((0 : ℝ), (0 : ℝ)) ((1 : ℝ), (0 : ℝ)) =
      Real.sqrt 101 := by
  unfold distToSegment
  rw [if_neg (fun hcon => absurd (congrArg Prod.fst hcon) (by norm_num))]
  norm_num [clamp01, dist]

/-- **C5 is false as stated**: in `P = [(0,0),(-10,1),(1,0)]` with `ε = 1`, the point
`(-10,1)` is within `ε` of the infinite line through the chord, so `rdp` drops it, but
its distance to the polyline `rdp(P, 1) = [(0,0),(1,0)]` — the minimum over its
segments of the point-to-segment distance — is `√101 > 1`. -/
theorem C5_counterexample :
    ¬ (∀ p ∈ [((0 : ℝ), (0 : ℝ)), ((-10 : ℝ), (1 : ℝ)), ((1 : ℝ), (0 : ℝ))],
        ∃ a b, Adj (rdp [((0 : ℝ), (0 : ℝ)), ((-10 : ℝ), (1 : ℝ)), ((1 : ℝ), (0 : ℝ))] 1) a b ∧
          distToSegment p a b ≤ 1) := by
  intro hall
  obtain ⟨a, b, hadj, hle⟩ := hall ((-10 : ℝ), (1 : ℝ)) (by simp)
  rw [rdp_cex_eval] at hadj
  obtain ⟨i, hia, hib⟩ := hadj
  rcases i with _ | n
  · have ha := hia
    have hb := hib
    simp only [List.getElem?_cons_zero, List.getElem?_cons_succ, Option.some.injEq] at ha hb
    subst ha
    subst hb
    rw [distToSeg_cex] at hle
    have hgt : (1 : ℝ) < Real.sqrt 101 := by
      rw [show (1 : ℝ) = Real.sqrt 1 by rw [Real.sqrt_one]]
      exact Real.sqrt_lt_sqrt (by norm_num) (by norm_num)
    linarith
  · simp at hib

/-- Witness for C6 at `[(0,0),(3,4)]`, `ε = 1`. -/
theorem C6_witness :
    ([((0 : ℝ), (0 : ℝ)), ((3 : ℝ), (4 : ℝ))] ≠ ([] : List Point)) ∧ ((0 : ℝ) ≤ 1) ∧
      (List.Sublist (rdp [((0 : ℝ), (0 : ℝ)), ((3 : ℝ), (4 : ℝ))] 1)
          [((0 : ℝ), (0 : ℝ)), ((3 : ℝ), (4 : ℝ))] ∧
        (rdp [((0 : ℝ), (0 : ℝ)), ((3 : ℝ), (4 : ℝ))] 1).head? =
          [((0 : ℝ), (0 : ℝ)), ((3 : ℝ), (4 : ℝ))].head? ∧
        (rdp [((0 : ℝ), (0 : ℝ)), ((3 : ℝ), (4 : ℝ))] 1).getLast? =
          [((0 : ℝ), (0 : ℝ)), ((3 : ℝ), (4 : ℝ))].getLast?) :=
  ⟨by simp, by norm_num, C6_rdp_subsequence_endpoints _ 1 (by simp) (by norm_num)⟩


/-! ## C7: angular ordering is a permutation and idempotent -/

lemma orderByAngle_perm (pts : List Point) : List.Perm (orderByAngle pts) pts :=
  List.perm_insertionSort _ _

lemma centroid_perm {l l' : List Point} (h : List.Perm l l') : centroid l = centroid l' := by
  unfold centroid
  rw [h.length_eq, (h.map Prod.fst).sum_eq, (h.map Prod.snd).sum_eq]

lemma orderByAngle_idem (pts : List Point) :
    orderByAngle (orderByAngle pts) = orderByAngle pts := by
  unfold orderByAngle
  have hc : centroid (List.insertionSort
      (fun a b => angleKey (centroid pts) a ≤ angleKey (centroid pts) b) pts) =
      centroid pts :=
    centroid_perm (List.perm_insertionSort _ _)
  simp only [hc]
  haveI hT : IsTotal Point (fun a b => angleKey (centroid pts) a ≤ angleKey (centroid pts) b) :=
    ⟨fun a b => le_total _ _⟩
  haveI hR : IsTrans Point (fun a b => angleKey (centroid pts) a ≤ angleKey (centroid pts) b) :=
    ⟨fun a b c hab hbc => le_trans hab hbc⟩
  exact List.Sorted.insertionSort_eq (List.sorted_insertionSort _ _)

/-- **C7.** For every non-empty point list `P`, `orderByAngle P` is a permutation of
`P` (same multiset of points), and `orderByAngle` is idempotent:
`orderByAngle (orderByAngle P) = orderByAngle P` (the sort is stable and re-sorting a
sorted list around the unchanged centroid returns it unchanged). -/
theorem C7_orderByAngle_perm_idem (P : List Point) (_hP : P ≠ []) :
    List.Perm (orderByAngle P) P ∧ orderByAngle (orderByAngle P) = orderByAngle P :=
  ⟨orderByAngle_perm P, orderByAngle_idem P⟩

/-- Witness for C7 at the singleton `[(1,2)]`. -/
theorem C7_witness :
    ([((1 : ℝ), (2 : ℝ))] ≠ ([] : List Point)) ∧
      (List.Perm (orderByAngle [((1 : ℝ), (2 : ℝ))]) [((1 : ℝ), (2 : ℝ))] ∧
        orderByAngle (orderByAngle [((1 : ℝ), (2 : ℝ))]) =
          orderByAngle [((1 : ℝ), (2 : ℝ))]) :=
  ⟨by simp, C7_orderByAngle_perm_idem _ (by simp)⟩


/-! ## C9: the explicit-square scenario -/

lemma atan2_pos_x {y x : ℝ} (hx : 0 < x) : atan2 y x = Real.arctan (y / x) := by
  unfold atan2
  rw [if_pos hx]

lemma atan2_neg_x_nonneg {y x : ℝ} (hx : x < 0) (hy : 0 ≤ y) :
    atan2 y x = Real.arctan (y / x) + Real.pi := by
  unfold atan2
  rw [if_neg (by linarith), if_pos hx, if_pos hy]

lemma atan2_neg_x_neg {y x : ℝ} (hx : x < 0) (hy : y < 0) :
    atan2 y x = Real.arctan (y / x) - Real.pi := by
  unfold atan2
  rw [if_neg (by linarith), if_pos hx, if_neg (by linarith)]

lemma atan2_zero_x_pos {y : ℝ} (hy : 0 < y) : atan2 y 0 = Real.pi / 2 := by
  unfold atan2
  rw [if_neg (lt_irrefl 0), if_neg (lt_irrefl 0), if_pos hy]

/-- The spec's explicit-square scenario input: `(0,0),(100,0),(100,100),(0,100)`. -/
def sq100 : List Point :=
  [((0 : ℝ), (0 : ℝ)), ((100 : ℝ), (0 : ℝ)), ((100 : ℝ), (100 : ℝ)), ((0 : ℝ), (100 : ℝ))]

lemma Real.arctan_one' : Real.arctan 1 = Real.pi / 4 := Real.arctan_one

lemma sq100_centroid : centroid sq100 = ((50 : ℝ), (50 : ℝ)) := by
  unfold centroid sq100
  norm_num

lemma sq100_key0 : angleKey ((50 : ℝ), (50 : ℝ)) ((0 : ℝ), (0 : ℝ)) =
    Real.pi / 4 - Real.pi := by
  unfold angleKey
  rw [show ((0 : ℝ), (0 : ℝ)).2 - ((50 : ℝ), (50 : ℝ)).2 = -50 by norm_num,
    atan2_neg_x_neg (by norm_num) (by norm_num),
    show ((-50 : ℝ)) / (-50) = 1 by norm_num, Real.arctan_one]

lemma sq100_key1 : angleKey ((50 : ℝ), (50 : ℝ)) ((100 : ℝ), (0 : ℝ)) =
    -(Real.pi / 4) := by
  unfold angleKey
  rw [show ((100 : ℝ), (0 : ℝ)).2 - ((50 : ℝ), (50 : ℝ)).2 = -50 by norm_num,
    show ((100 : ℝ), (0 : ℝ)).1 - ((50 : ℝ), (50 : ℝ)).1 = 50 by norm_num,
    atan2_pos_x (by norm_num), show ((-50 : ℝ)) / 50 = -1 by norm_num,
    Real.arctan_neg, Real.arctan_one]

lemma sq100_key2 : angleKey ((50 : ℝ), (50 : ℝ)) ((100 : ℝ), (100 : ℝ)) = Real.pi / 4 := by
  unfold angleKey
  rw [show ((100 : ℝ), (100 : ℝ)).2 - ((50 : ℝ), (50 : ℝ)).2 = 50 by norm_num,
    atan2_pos_x (by norm_num), show ((50 : ℝ)) / 50 = 1 by norm_num, Real.arctan_one]

lemma sq100_key3 : angleKey ((50 : ℝ), (50 : ℝ)) ((0 : ℝ), (100 : ℝ)) =
    -(Real.pi / 4) + Real.pi := by
  unfold angleKey
  rw [show ((0 : ℝ), (100 : ℝ)).2 - ((50 : ℝ), (50 : ℝ)).2 = 50 by norm_num,
    show ((0 : ℝ), (100 : ℝ)).1 - ((50 : ℝ), (50 : ℝ)).1 = -50 by norm_num,
    atan2_neg_x_nonneg (by norm_num) (by norm_num),
    show ((50 : ℝ)) / (-50) = -1 by norm_num, Real.arctan_neg, Real.arctan_one]

lemma sq100_order : orderByAngle sq100 = sq100 := by
  have hpi := Real.pi_pos
  unfold orderByAngle
  simp only [sq100_centroid]
  apply List.Sorted.insertionSort_eq
  show List.Sorted _ sq100
  unfold sq100
  refine List.sorted_cons.mpr ⟨?_, List.sorted_cons.mpr ⟨?_, List.sorted_cons.mpr
    ⟨?_, List.sorted_singleton _⟩⟩⟩
  · intro b hb
    rcases (show b = ((100 : ℝ), (0 : ℝ)) ∨ b = ((100 : ℝ), (100 : ℝ)) ∨
        b = ((0 : ℝ), (100 : ℝ)) by simpa using hb) with rfl | rfl | rfl
    · show angleKey _ _ ≤ angleKey _ _
      rw [sq100_key0, sq100_key1]
      linarith
    · show angleKey _ _ ≤ angleKey _ _
      rw [sq100_key0, sq100_key2]
      linarith
    · show angleKey _ _ ≤ angleKey _ _
      rw [sq100_key0, sq100_key3]
      linarith
  · intro b hb
    rcases (show b = ((100 : ℝ), (100 : ℝ)) ∨ b = ((0 : ℝ), (100 : ℝ)) by simpa using hb)
      with rfl | rfl
    · show angleKey _ _ ≤ angleKey _ _
      rw [sq100_key1, sq100_key2]
      linarith
    · show angleKey _ _ ≤ angleKey _ _
      rw [sq100_key1, sq100_key3]
      linarith
  · intro b hb
    rcases (show b = ((0 : ℝ), (100 : ℝ)) by simpa using hb) with rfl
    show angleKey _ _ ≤ angleKey _ _
    rw [sq100_key2, sq100_key3]
    linarith

lemma sq100_ordAt0 : ordAt sq100 0 = ((0 : ℝ), (0 : ℝ)) := by
  rw [ordAt, sq100_order]
  rfl

lemma sq100_ordAt1 : ordAt sq100 1 = ((100 : ℝ), (0 : ℝ)) := by
  rw [ordAt, sq100_order]
  rfl

lemma sq100_ordAt2 : ordAt sq100 2 = ((100 : ℝ), (100 : ℝ)) := by
  rw [ordAt, sq100_order]
  rfl

lemma sq100_ordAt3 : ordAt sq100 3 = ((0 : ℝ), (100 : ℝ)) := by
  rw [ordAt, sq100_order]
  rfl

lemma sq100_side0 : quadSide sq100 0 = 100 := by
  show dist (ordAt sq100 0) (ordAt sq100 1) = 100
  rw [sq100_ordAt0, sq100_ordAt1]
  exact dist_eval (by norm_num) (by norm_num)

lemma sq100_side1 : quadSide sq100 1 = 100 := by
  show dist (ordAt sq100 1) (ordAt sq100 2) = 100
  rw [sq100_ordAt1, sq100_ordAt2]
  exact dist_eval (by norm_num) (by norm_num)

lemma sq100_side2 : quadSide sq100 2 = 100 := by
  show dist (ordAt sq100 2) (ordAt sq100 3) = 100
  rw [sq100_ordAt2, sq100_ordAt3]
  exact dist_eval (by norm_num) (by norm_num)

lemma sq100_side3 : quadSide sq100 3 = 100 := by
  show dist (ordAt sq100 3) (ordAt sq100 0) = 100
  rw [sq100_ordAt3, sq100_ordAt0]
  exact dist_eval (by norm_num) (by norm_num)

lemma sq100_ratio : quadSideRatio sq100 = 1 := by
  rw [quadSideRatio, quadSideMin, quadSideMax, sq100_side0, sq100_side1, sq100_side2,
    sq100_side3]
  norm_num

lemma sq100_angle0 : quadAngle sq100 0 = Real.pi / 2 := by
  show angleBetween (ordAt sq100 3) (ordAt sq100 0) (ordAt sq100 1) = _
  rw [sq100_ordAt3, sq100_ordAt0, sq100_ordAt1]
  simp only [angleBetween]
  norm_num
  exact atan2_zero_x_pos (by norm_num)

lemma sq100_angle1 : quadAngle sq100 1 = Real.pi / 2 := by
  show angleBetween (ordAt sq100 0) (ordAt sq100 1) (ordAt sq100 2) = _
  rw [sq100_ordAt0, sq100_ordAt1, sq100_ordAt2]
  simp only [angleBetween]
  norm_num
  exact atan2_zero_x_pos (by norm_num)

lemma sq100_angle2 : quadAngle sq100 2 = Real.pi / 2 := by
  show angleBetween (ordAt sq100 1) (ordAt sq100 2) (ordAt sq100 3) = _
  rw [sq100_ordAt1, sq100_ordAt2, sq100_ordAt3]
  simp only [angleBetween]
  norm_num
  exact atan2_zero_x_pos (by norm_num)

lemma sq100_angle3 : quadAngle sq100 3 = Real.pi / 2 := by
  show angleBetween (ordAt sq100 2) (ordAt sq100 3) (ordAt sq100 0) = _
  rw [sq100_ordAt2, sq100_ordAt3, sq100_ordAt0]
  simp only [angleBetween]
  norm_num
  exact atan2_zero_x_pos (by norm_num)

lemma sq100_mad : quadMaxAngleDiff sq100 = 0 := by
  rw [quadMaxAngleDiff, sq100_angle0, sq100_angle1, sq100_angle2, sq100_angle3]
  norm_num

/-- **C9.** `recognizeFromPoints` applied to exactly the 4 points `(0,0)`, `(100,0)`,
`(100,100)`, `(0,100)` returns a result of type SQUARE with `vertices = 4` and
confidence ≥ 90 (the computed confidence is the 99 cap). -/
theorem C9_explicit_square_scenario :
    ∃ r, recognizeFromPoints sq100 = some r ∧ r.type = "SQUARE" ∧ r.vertices = 4 ∧
      90 ≤ r.confidence := by
  have hcond : quadMaxAngleDiff sq100 < 0.35 ∧ quadSideRatio sq100 > 0.8 := by
    rw [sq100_mad, sq100_ratio]
    norm_num
  have hc4 : classify4 sq100 = ⟨"SQUARE",
      min 99 (jround (70 + quadSideRatio sq100 * 20 + (1 - quadMaxAngleDiff sq100) * 10)),
      4, "", orderByAngle sq100, "hsla(280, 60%, 55%, 1)"⟩ := by
    unfold classify4
    rw [if_pos hcond]
  refine ⟨classify4 sq100, ?_, ?_, ?_, ?_⟩
  · unfold recognizeFromPoints classifyPolygon
    rw [if_neg (by simp [sq100]), if_pos (by simp [sq100]), if_neg (by simp [sq100]),
      if_neg (by simp [sq100]), if_pos (by simp [sq100])]
  · rw [hc4]
  · rw [hc4]
  · rw [hc4]
    refine confClamp_ge (by norm_num) ?_
    rw [sq100_mad, sq100_ratio]
    norm_num


/-! ## C4: the circle/oval detector's scoring stage -/

lemma ptld_eval {p a b : Point} {L c : ℝ}
    (hL : (b.1 - a.1) ^ 2 + (b.2 - a.2) ^ 2 = L) (h0 : 0 < L)
    (hc : (p.1 - a.1) * (b.2 - a.2) - (p.2 - a.2) * (b.1 - a.1) = c) :
    pointToLineDist p a b = |c| / Real.sqrt L := by
  unfold pointToLineDist
  rw [hL, hc, if_neg]
  intro hz
  rw [Real.sqrt_eq_zero'] at hz
  linarith

lemma ptld_zero {p a b : Point} {L : ℝ}
    (hL : (b.1 - a.1) ^ 2 + (b.2 - a.2) ^ 2 = L) (h0 : 0 < L)
    (hc : (p.1 - a.1) * (b.2 - a.2) - (p.2 - a.2) * (b.1 - a.1) = 0) :
    (0 : ℝ) = pointToLineDist p a b := by
  rw [ptld_eval hL h0 hc]
  simp

lemma ptld_gt_const {p a b : Point} {L c t : ℝ}
    (hL : (b.1 - a.1) ^ 2 + (b.2 - a.2) ^ 2 = L) (h0 : 0 < L)
    (hc : (p.1 - a.1) * (b.2 - a.2) - (p.2 - a.2) * (b.1 - a.1) = c)
    (ht : 0 ≤ t) (h : t ^ 2 * L < c ^ 2) : t < pointToLineDist p a b := by
  rw [ptld_eval hL h0 hc, lt_div_iff (Real.sqrt_pos.mpr h0)]
  nlinarith [abs_nonneg c, mul_nonneg ht (Real.sqrt_nonneg L), Real.sq_sqrt h0.le,
    Real.sqrt_nonneg L, sq_abs c]

lemma ptld_lt_ptld {p q a b : Point} {L c d : ℝ}
    (hL : (b.1 - a.1) ^ 2 + (b.2 - a.2) ^ 2 = L) (h0 : 0 < L)
    (hp : (p.1 - a.1) * (b.2 - a.2) - (p.2 - a.2) * (b.1 - a.1) = c)
    (hq : (q.1 - a.1) * (b.2 - a.2) - (q.2 - a.2) * (b.1 - a.1) = d)
    (h : |c| < |d|) : pointToLineDist p a b < pointToLineDist q a b := by
  rw [ptld_eval hL h0 hp, ptld_eval hL h0 hq]
  have hs : 0 < Real.sqrt L := Real.sqrt_pos.mpr h0
  exact (div_lt_div_right hs).mpr h

lemma ptld_le_ptld {p q a b : Point} {L c d : ℝ}
    (hL : (b.1 - a.1) ^ 2 + (b.2 - a.2) ^ 2 = L) (h0 : 0 < L)
    (hp : (p.1 - a.1) * (b.2 - a.2) - (p.2 - a.2) * (b.1 - a.1) = c)
    (hq : (q.1 - a.1) * (b.2 - a.2) - (q.2 - a.2) * (b.1 - a.1) = d)
    (h : |c| ≤ |d|) : pointToLineDist p a b ≤ pointToLineDist q a b := by
  rw [ptld_eval hL h0 hp, ptld_eval hL h0 hq]
  have hs : 0 < Real.sqrt L := Real.sqrt_pos.mpr h0
  exact (div_le_div_right hs).mpr h

/-- The witness input for the circle/oval scoring stage: an elongated ten-point
loop whose simplification passes every guard of the detector. -/
def coW : List Point :=
  [((10 : ℝ), (0 : ℝ)), ((48 : ℝ), (0 : ℝ)), ((86 : ℝ), (0 : ℝ)), ((102 : ℝ), (12 : ℝ)), ((86 : ℝ), (24 : ℝ)), ((48 : ℝ), (24 : ℝ)), ((10 : ℝ), (24 : ℝ)), (((-6 : ℝ)), (12 : ℝ)), ((0 : ℝ), (7 : ℝ)), ((6 : ℝ), (2 : ℝ))]

lemma coW_perim : perimeter coW = 212 + 2 * Real.sqrt 61 + Real.sqrt 20 := by
  have d0 : dist ((10 : ℝ), (0 : ℝ)) ((48 : ℝ), (0 : ℝ)) = 38 := dist_eval (by norm_num) (by norm_num)
  have d1 : dist ((48 : ℝ), (0 : ℝ)) ((86 : ℝ), (0 : ℝ)) = 38 := dist_eval (by norm_num) (by norm_num)
  have d2 : dist ((86 : ℝ), (0 : ℝ)) ((102 : ℝ), (12 : ℝ)) = 20 := dist_eval (by norm_num) (by norm_num)
  have d3 : dist ((102 : ℝ), (12 : ℝ)) ((86 : ℝ), (24 : ℝ)) = 20 := dist_eval (by norm_num) (by norm_num)
  have d4 : dist ((86 : ℝ), (24 : ℝ)) ((48 : ℝ), (24 : ℝ)) = 38 := dist_eval (by norm_num) (by norm_num)
  have d5 : dist ((48 : ℝ), (24 : ℝ)) ((10 : ℝ), (24 : ℝ)) = 38 := dist_eval (by norm_num) (by norm_num)
  have d6 : dist ((10 : ℝ), (24 : ℝ)) (((-6 : ℝ)), (12 : ℝ)) = 20 := dist_eval (by norm_num) (by norm_num)
  have d7 : dist (((-6 : ℝ)), (12 : ℝ)) ((0 : ℝ), (7 : ℝ)) = Real.sqrt 61 := dist_eval (Real.sqrt_nonneg _) (by rw [Real.sq_sqrt (by norm_num : (0 : ℝ) ≤ 61)]; norm_num)
  have d8 : dist ((0 : ℝ), (7 : ℝ)) ((6 : ℝ), (2 : ℝ)) = Real.sqrt 61 := dist_eval (Real.sqrt_nonneg _) (by rw [Real.sq_sqrt (by norm_num : (0 : ℝ) ≤ 61)]; norm_num)
  have d9 : dist ((6 : ℝ), (2 : ℝ)) ((10 : ℝ), (0 : ℝ)) = Real.sqrt 20 := dist_eval (Real.sqrt_nonneg _) (by rw [Real.sq_sqrt (by norm_num : (0 : ℝ) ≤ 20)]; norm_num)
  show dist ((10 : ℝ), (0 : ℝ)) ((48 : ℝ), (0 : ℝ)) + (dist ((48 : ℝ), (0 : ℝ)) ((86 : ℝ), (0 : ℝ)) + (dist ((86 : ℝ), (0 : ℝ)) ((102 : ℝ), (12 : ℝ)) + (dist ((102 : ℝ), (12 : ℝ)) ((86 : ℝ), (24 : ℝ)) + (dist ((86 : ℝ), (24 : ℝ)) ((48 : ℝ), (24 : ℝ)) + (dist ((48 : ℝ), (24 : ℝ)) ((10 : ℝ), (24 : ℝ)) + (dist ((10 : ℝ), (24 : ℝ)) (((-6 : ℝ)), (12 : ℝ)) + (dist (((-6 : ℝ)), (12 : ℝ)) ((0 : ℝ), (7 : ℝ)) + (dist ((0 : ℝ), (7 : ℝ)) ((6 : ℝ), (2 : ℝ)) + (dist ((6 : ℝ), (2 : ℝ)) ((10 : ℝ), (0 : ℝ)) + 0))))))))) = _
  rw [d0, d1, d2, d3, d4, d5, d6, d7, d8, d9]
  ring

lemma sqrt61_bounds : 7.81 < Real.sqrt 61 ∧ Real.sqrt 61 < 7.82 :=
  ⟨(Real.lt_sqrt (by norm_num)).mpr (by norm_num), (Real.sqrt_lt' (by norm_num)).mpr (by norm_num)⟩

lemma sqrt20_bounds : 4.47 < Real.sqrt 20 ∧ Real.sqrt 20 < 4.5 :=
  ⟨(Real.lt_sqrt (by norm_num)).mpr (by norm_num), (Real.sqrt_lt' (by norm_num)).mpr (by norm_num)⟩

lemma coW_perim_lb : 232 < perimeter coW := by
  rw [coW_perim]
  have h1 := sqrt61_bounds.1
  have h2 := sqrt20_bounds.1
  linarith

lemma coW_perim_ub : perimeter coW < 233 := by
  rw [coW_perim]
  have h1 := sqrt61_bounds.2
  have h2 := sqrt20_bounds.2
  linarith

lemma coW_eps : max 6 (perimeter coW * 0.02) = 6 :=
  max_eq_left (by nlinarith [coW_perim_ub, coW_perim_lb])

lemma coW_scan_top : rdpScan [((10 : ℝ), (0 : ℝ)), ((48 : ℝ), (0 : ℝ)), ((86 : ℝ), (0 : ℝ)), ((102 : ℝ), (12 : ℝ)), ((86 : ℝ), (24 : ℝ)), ((48 : ℝ), (24 : ℝ)), ((10 : ℝ), (24 : ℝ)), (((-6 : ℝ)), (12 : ℝ)), ((0 : ℝ), (7 : ℝ)), ((6 : ℝ), (2 : ℝ))] =
    (4, pointToLineDist ((86 : ℝ), (24 : ℝ)) ((10 : ℝ), (0 : ℝ)) ((6 : ℝ), (2 : ℝ))) := by
  show scanMax ((10 : ℝ), (0 : ℝ)) ((6 : ℝ), (2 : ℝ)) [((48 : ℝ), (0 : ℝ)), ((86 : ℝ), (0 : ℝ)), ((102 : ℝ), (12 : ℝ)), ((86 : ℝ), (24 : ℝ)), ((48 : ℝ), (24 : ℝ)), ((10 : ℝ), (24 : ℝ)), (((-6 : ℝ)), (12 : ℝ)), ((0 : ℝ), (7 : ℝ))] 1 (0, 0) = _
  rw [scanMax, if_pos (by exact ptld_gt_const (L := 20) (c := 76) (by norm_num) (by norm_num) (by norm_num) (by norm_num) (by norm_num))]
  rw [scanMax, if_pos (by exact ptld_lt_ptld (L := 20) (c := 76) (d := 152) (by norm_num) (by norm_num) (by norm_num) (by norm_num) (by norm_num))]
  rw [scanMax, if_pos (by exact ptld_lt_ptld (L := 20) (c := 152) (d := 232) (by norm_num) (by norm_num) (by norm_num) (by norm_num) (by norm_num))]
  rw [scanMax, if_pos (by exact ptld_lt_ptld (L := 20) (c := 232) (d := 248) (by norm_num) (by norm_num) (by norm_num) (by norm_num) (by norm_num))]
  rw [scanMax, if_neg (by exact not_lt.mpr (ptld_le_ptld (L := 20) (c := 172) (d := 248) (by norm_num) (by norm_num) (by norm_num) (by norm_num) (by norm_num)))]
  rw [scanMax, if_neg (by exact not_lt.mpr (ptld_le_ptld (L := 20) (c := 96) (d := 248) (by norm_num) (by norm_num) (by norm_num) (by norm_num) (by norm_num)))]
  rw [scanMax, if_neg (by exact not_lt.mpr (ptld_le_ptld (L := 20) (c := 16) (d := 248) (by norm_num) (by norm_num) (by norm_num) (by norm_num) (by norm_num)))]
  rw [scanMax, if_neg (by exact not_lt.mpr (ptld_le_ptld (L := 20) (c := 8) (d := 248) (by norm_num) (by norm_num) (by norm_num) (by norm_num) (by norm_num)))]
  rw [scanMax]

lemma coW_scan_L : rdpScan [((10 : ℝ), (0 : ℝ)), ((48 : ℝ), (0 : ℝ)), ((86 : ℝ), (0 : ℝ)), ((102 : ℝ), (12 : ℝ)), ((86 : ℝ), (24 : ℝ))] =
    (2, pointToLineDist ((86 : ℝ), (0 : ℝ)) ((10 : ℝ), (0 : ℝ)) ((86 : ℝ), (24 : ℝ))) := by
  show scanMax ((10 : ℝ), (0 : ℝ)) ((86 : ℝ), (24 : ℝ)) [((48 : ℝ), (0 : ℝ)), ((86 : ℝ), (0 : ℝ)), ((102 : ℝ), (12 : ℝ))] 1 (0, 0) = _
  rw [scanMax, if_pos (by exact ptld_gt_const (L := 6352) (c := 912) (by norm_num) (by norm_num) (by norm_num) (by norm_num) (by norm_num))]
  rw [scanMax, if_pos (by exact ptld_lt_ptld (L := 6352) (c := 912) (d := 1824) (by norm_num) (by norm_num) (by norm_num) (by norm_num) (by norm_num))]
  rw [scanMax, if_neg (by exact not_lt.mpr (ptld_le_ptld (L := 6352) (c := 1296) (d := 1824) (by norm_num) (by norm_num) (by norm_num) (by norm_num) (by norm_num)))]
  rw [scanMax]

lemma coW_scan_LL : rdpScan [((10 : ℝ), (0 : ℝ)), ((48 : ℝ), (0 : ℝ)), ((86 : ℝ), (0 : ℝ))] =
    ((0 : ℕ), (0 : ℝ)) := by
  show scanMax ((10 : ℝ), (0 : ℝ)) ((86 : ℝ), (0 : ℝ)) [((48 : ℝ), (0 : ℝ))] 1 (0, 0) = _
  rw [scanMax, if_neg (by exact not_lt.mpr (le_of_eq (Eq.symm (ptld_zero (L := 5776) (by norm_num) (by norm_num) (by norm_num)))))]
  rw [scanMax]

lemma coW_scan_LR : rdpScan [((86 : ℝ), (0 : ℝ)), ((102 : ℝ), (12 : ℝ)), ((86 : ℝ), (24 : ℝ))] =
    (1, pointToLineDist ((102 : ℝ), (12 : ℝ)) ((86 : ℝ), (0 : ℝ)) ((86 : ℝ), (24 : ℝ))) := by
  show scanMax ((86 : ℝ), (0 : ℝ)) ((86 : ℝ), (24 : ℝ)) [((102 : ℝ), (12 : ℝ))] 1 (0, 0) = _
  rw [scanMax, if_pos (by exact ptld_gt_const (L := 576) (c := 384) (by norm_num) (by norm_num) (by norm_num) (by norm_num) (by norm_num))]
  rw [scanMax]

lemma coW_scan_R : rdpScan [((86 : ℝ), (24 : ℝ)), ((48 : ℝ), (24 : ℝ)), ((10 : ℝ), (24 : ℝ)), (((-6 : ℝ)), (12 : ℝ)), ((0 : ℝ), (7 : ℝ)), ((6 : ℝ), (2 : ℝ))] =
    (2, pointToLineDist ((10 : ℝ), (24 : ℝ)) ((86 : ℝ), (24 : ℝ)) ((6 : ℝ), (2 : ℝ))) := by
  show scanMax ((86 : ℝ), (24 : ℝ)) ((6 : ℝ), (2 : ℝ)) [((48 : ℝ), (24 : ℝ)), ((10 : ℝ), (24 : ℝ)), (((-6 : ℝ)), (12 : ℝ)), ((0 : ℝ), (7 : ℝ))] 1 (0, 0) = _
  rw [scanMax, if_pos (by exact ptld_gt_const (L := 6884) (c := 836) (by norm_num) (by norm_num) (by norm_num) (by norm_num) (by norm_num))]
  rw [scanMax, if_pos (by exact ptld_lt_ptld (L := 6884) (c := 836) (d := 1672) (by norm_num) (by norm_num) (by norm_num) (by norm_num) (by norm_num))]
  rw [scanMax, if_neg (by exact not_lt.mpr (ptld_le_ptld (L := 6884) (c := 1064) (d := 1672) (by norm_num) (by norm_num) (by norm_num) (by norm_num) (by norm_num)))]
  rw [scanMax, if_neg (by exact not_lt.mpr (ptld_le_ptld (L := 6884) (c := 532) (d := 1672) (by norm_num) (by norm_num) (by norm_num) (by norm_num) (by norm_num)))]
  rw [scanMax]

lemma coW_scan_RL : rdpScan [((86 : ℝ), (24 : ℝ)), ((48 : ℝ), (24 : ℝ)), ((10 : ℝ), (24 : ℝ))] =
    ((0 : ℕ), (0 : ℝ)) := by
  show scanMax ((86 : ℝ), (24 : ℝ)) ((10 : ℝ), (24 : ℝ)) [((48 : ℝ), (24 : ℝ))] 1 (0, 0) = _
  rw [scanMax, if_neg (by exact not_lt.mpr (le_of_eq (Eq.symm (ptld_zero (L := 5776) (by norm_num) (by norm_num) (by norm_num)))))]
  rw [scanMax]

lemma coW_scan_RR : rdpScan [((10 : ℝ), (24 : ℝ)), (((-6 : ℝ)), (12 : ℝ)), ((0 : ℝ), (7 : ℝ)), ((6 : ℝ), (2 : ℝ))] =
    (1, pointToLineDist (((-6 : ℝ)), (12 : ℝ)) ((10 : ℝ), (24 : ℝ)) ((6 : ℝ), (2 : ℝ))) := by
  show scanMax ((10 : ℝ), (24 : ℝ)) ((6 : ℝ), (2 : ℝ)) [(((-6 : ℝ)), (12 : ℝ)), ((0 : ℝ), (7 : ℝ))] 1 (0, 0) = _
  rw [scanMax, if_pos (by exact ptld_gt_const (L := 500) (c := 304) (by norm_num) (by norm_num) (by norm_num) (by norm_num) (by norm_num))]
  rw [scanMax, if_neg (by exact not_lt.mpr (ptld_le_ptld (L := 500) (c := 152) (d := 304) (by norm_num) (by norm_num) (by norm_num) (by norm_num) (by norm_num)))]
  rw [scanMax]

lemma coW_scan_RRR : rdpScan [(((-6 : ℝ)), (12 : ℝ)), ((0 : ℝ), (7 : ℝ)), ((6 : ℝ), (2 : ℝ))] =
    ((0 : ℕ), (0 : ℝ)) := by
  show scanMax (((-6 : ℝ)), (12 : ℝ)) ((6 : ℝ), (2 : ℝ)) [((0 : ℝ), (7 : ℝ))] 1 (0, 0) = _
  rw [scanMax, if_neg (by exact not_lt.mpr (le_of_eq (Eq.symm (ptld_zero (L := 244) (by norm_num) (by norm_num) (by norm_num)))))]
  rw [scanMax]

lemma coW_rdp_LL : rdp [((10 : ℝ), (0 : ℝ)), ((48 : ℝ), (0 : ℝ)), ((86 : ℝ), (0 : ℝ))] 6 = [((10 : ℝ), (0 : ℝ)), ((86 : ℝ), (0 : ℝ))] := by
  rw [rdp, if_neg (by simp), dif_neg]
  · rfl
  · rw [coW_scan_LL]
    norm_num

lemma coW_rdp_LR : rdp [((86 : ℝ), (0 : ℝ)), ((102 : ℝ), (12 : ℝ)), ((86 : ℝ), (24 : ℝ))] 6 =
    [((86 : ℝ), (0 : ℝ)), ((102 : ℝ), (12 : ℝ)), ((86 : ℝ), (24 : ℝ))] := by
  rw [rdp, if_neg (by simp), coW_scan_LR, dif_pos ⟨by exact (by norm_num : (1 : ℕ) ≤ 1), by exact (by norm_num : (1 : ℕ) + 1 < 3), by exact ptld_gt_const (L := 576) (c := 384) (by norm_num) (by norm_num) (by norm_num) (by norm_num) (by norm_num)⟩]
  show (rdp [((86 : ℝ), (0 : ℝ)), ((102 : ℝ), (12 : ℝ))] 6).dropLast ++ rdp [((102 : ℝ), (12 : ℝ)), ((86 : ℝ), (24 : ℝ))] 6 = _
  rw [rdp_short (by simp), rdp_short (by simp)]
  rfl

lemma coW_rdp_L : rdp [((10 : ℝ), (0 : ℝ)), ((48 : ℝ), (0 : ℝ)), ((86 : ℝ), (0 : ℝ)), ((102 : ℝ), (12 : ℝ)), ((86 : ℝ), (24 : ℝ))] 6 =
    [((10 : ℝ), (0 : ℝ)), ((86 : ℝ), (0 : ℝ)), ((102 : ℝ), (12 : ℝ)), ((86 : ℝ), (24 : ℝ))] := by
  rw [rdp, if_neg (by simp), coW_scan_L, dif_pos ⟨by exact (by norm_num : (1 : ℕ) ≤ 2), by exact (by norm_num : (2 : ℕ) + 1 < 5), by exact ptld_gt_const (L := 6352) (c := 1824) (by norm_num) (by norm_num) (by norm_num) (by norm_num) (by norm_num)⟩]
  show (rdp [((10 : ℝ), (0 : ℝ)), ((48 : ℝ), (0 : ℝ)), ((86 : ℝ), (0 : ℝ))] 6).dropLast ++ rdp [((86 : ℝ), (0 : ℝ)), ((102 : ℝ), (12 : ℝ)), ((86 : ℝ), (24 : ℝ))] 6 = _
  rw [coW_rdp_LL, coW_rdp_LR]
  rfl

lemma coW_rdp_RL : rdp [((86 : ℝ), (24 : ℝ)), ((48 : ℝ), (24 : ℝ)), ((10 : ℝ), (24 : ℝ))] 6 = [((86 : ℝ), (24 : ℝ)), ((10 : ℝ), (24 : ℝ))] := by
  rw [rdp, if_neg (by simp), dif_neg]
  · rfl
  · rw [coW_scan_RL]
    norm_num

lemma coW_rdp_RRR : rdp [(((-6 : ℝ)), (12 : ℝ)), ((0 : ℝ), (7 : ℝ)), ((6 : ℝ), (2 : ℝ))] 6 = [(((-6 : ℝ)), (12 : ℝ)), ((6 : ℝ), (2 : ℝ))] := by
  rw [rdp, if_neg (by simp), dif_neg]
  · rfl
  · rw [coW_scan_RRR]
    norm_num

lemma coW_rdp_RR : rdp [((10 : ℝ), (24 : ℝ)), (((-6 : ℝ)), (12 : ℝ)), ((0 : ℝ), (7 : ℝ)), ((6 : ℝ), (2 : ℝ))] 6 =
    [((10 : ℝ), (24 : ℝ)), (((-6 : ℝ)), (12 : ℝ)), ((6 : ℝ), (2 : ℝ))] := by
  rw [rdp, if_neg (by simp), coW_scan_RR, dif_pos ⟨by exact (by norm_num : (1 : ℕ) ≤ 1), by exact (by norm_num : (1 : ℕ) + 1 < 4), by exact ptld_gt_const (L := 500) (c := 304) (by norm_num) (by norm_num) (by norm_num) (by norm_num) (by norm_num)⟩]
  show (rdp [((10 : ℝ), (24 : ℝ)), (((-6 : ℝ)), (12 : ℝ))] 6).dropLast ++ rdp [(((-6 : ℝ)), (12 : ℝ)), ((0 : ℝ), (7 : ℝ)), ((6 : ℝ), (2 : ℝ))] 6 = _
  rw [rdp_short (by simp), coW_rdp_RRR]
  rfl

lemma coW_rdp_R : rdp [((86 : ℝ), (24 : ℝ)), ((48 : ℝ), (24 : ℝ)), ((10 : ℝ), (24 : ℝ)), (((-6 : ℝ)), (12 : ℝ)), ((0 : ℝ), (7 : ℝ)), ((6 : ℝ), (2 : ℝ))] 6 =
    [((86 : ℝ), (24 : ℝ)), ((10 : ℝ), (24 : ℝ)), (((-6 : ℝ)), (12 : ℝ)), ((6 : ℝ), (2 : ℝ))] := by
  rw [rdp, if_neg (by simp), coW_scan_R, dif_pos ⟨by exact (by norm_num : (1 : ℕ) ≤ 2), by exact (by norm_num : (2 : ℕ) + 1 < 6), by exact ptld_gt_const (L := 6884) (c := 1672) (by norm_num) (by norm_num) (by norm_num) (by norm_num) (by norm_num)⟩]
  show (rdp [((86 : ℝ), (24 : ℝ)), ((48 : ℝ), (24 : ℝ)), ((10 : ℝ), (24 : ℝ))] 6).dropLast ++ rdp [((10 : ℝ), (24 : ℝ)), (((-6 : ℝ)), (12 : ℝ)), ((0 : ℝ), (7 : ℝ)), ((6 : ℝ), (2 : ℝ))] 6 = _
  rw [coW_rdp_RL, coW_rdp_RR]
  rfl

lemma coW_rdp : rdp coW 6 =
    [((10 : ℝ), (0 : ℝ)), ((86 : ℝ), (0 : ℝ)), ((102 : ℝ), (12 : ℝ)), ((86 : ℝ), (24 : ℝ)), ((10 : ℝ), (24 : ℝ)), (((-6 : ℝ)), (12 : ℝ)), ((6 : ℝ), (2 : ℝ))] := by
  show rdp [((10 : ℝ), (0 : ℝ)), ((48 : ℝ), (0 : ℝ)), ((86 : ℝ), (0 : ℝ)), ((102 : ℝ), (12 : ℝ)), ((86 : ℝ), (24 : ℝ)), ((48 : ℝ), (24 : ℝ)), ((10 : ℝ), (24 : ℝ)), (((-6 : ℝ)), (12 : ℝ)), ((0 : ℝ), (7 : ℝ)), ((6 : ℝ), (2 : ℝ))] 6 = _
  rw [rdp, if_neg (by simp), coW_scan_top, dif_pos ⟨by exact (by norm_num : (1 : ℕ) ≤ 4), by exact (by norm_num : (4 : ℕ) + 1 < 10), by exact ptld_gt_const (L := 20) (c := 248) (by norm_num) (by norm_num) (by norm_num) (by norm_num) (by norm_num)⟩]
  show (rdp [((10 : ℝ), (0 : ℝ)), ((48 : ℝ), (0 : ℝ)), ((86 : ℝ), (0 : ℝ)), ((102 : ℝ), (12 : ℝ)), ((86 : ℝ), (24 : ℝ))] 6).dropLast ++ rdp [((86 : ℝ), (24 : ℝ)), ((48 : ℝ), (24 : ℝ)), ((10 : ℝ), (24 : ℝ)), (((-6 : ℝ)), (12 : ℝ)), ((0 : ℝ), (7 : ℝ)), ((6 : ℝ), (2 : ℝ))] 6 = _
  rw [coW_rdp_L, coW_rdp_R]
  rfl

lemma coW_closing_dist : dist ((10 : ℝ), (0 : ℝ)) ((6 : ℝ), (2 : ℝ)) = Real.sqrt 20 :=
  dist_eval (Real.sqrt_nonneg _) (by rw [Real.sq_sqrt (by norm_num : (0 : ℝ) ≤ 20)]; norm_num)

lemma coW_coPoly : coPoly coW =
    [((10 : ℝ), (0 : ℝ)), ((86 : ℝ), (0 : ℝ)), ((102 : ℝ), (12 : ℝ)), ((86 : ℝ), (24 : ℝ)), ((10 : ℝ), (24 : ℝ)), (((-6 : ℝ)), (12 : ℝ))] := by
  have hcl : dist ((10 : ℝ), (0 : ℝ)) ((6 : ℝ), (2 : ℝ)) < perimeter coW * 0.08 := by
    rw [coW_closing_dist]
    nlinarith [coW_perim_lb, sqrt20_bounds.2]
  show (if 2 < (rdp coW (max 6 (perimeter coW * 0.02))).length ∧ dist (rdp coW (max 6 (perimeter coW * 0.02))).headI (rdp coW (max 6 (perimeter coW * 0.02))).getLastI < perimeter coW * 0.08 then (rdp coW (max 6 (perimeter coW * 0.02))).dropLast else rdp coW (max 6 (perimeter coW * 0.02))) = _
  rw [coW_eps, coW_rdp]
  rw [if_pos ⟨by exact (by norm_num : (2 : ℕ) < 7), by exact hcl⟩]
  rfl

lemma coW_key1 : angleKey (((48 : ℝ)), ((12 : ℝ))) ((10 : ℝ), (0 : ℝ)) =
    Real.arctan (6 / 19) - Real.pi := by
  unfold angleKey
  rw [show (((10 : ℝ), (0 : ℝ))).2 - ((((48 : ℝ)), ((12 : ℝ)))).2 = -12 by norm_num, show (((10 : ℝ), (0 : ℝ))).1 - ((((48 : ℝ)), ((12 : ℝ)))).1 = -38 by norm_num, atan2_neg_x_neg (by norm_num) (by norm_num), show ((-12 : ℝ)) / (-38) = 6 / 19 by norm_num]
lemma coW_key2 : angleKey (((48 : ℝ)), ((12 : ℝ))) ((86 : ℝ), (0 : ℝ)) =
    -Real.arctan (6 / 19) := by
  unfold angleKey
  rw [show (((86 : ℝ), (0 : ℝ))).2 - ((((48 : ℝ)), ((12 : ℝ)))).2 = -12 by norm_num, show (((86 : ℝ), (0 : ℝ))).1 - ((((48 : ℝ)), ((12 : ℝ)))).1 = 38 by norm_num, atan2_pos_x (by norm_num), show ((-12 : ℝ)) / 38 = -(6 / 19) by norm_num, Real.arctan_neg]
lemma coW_key3 : angleKey (((48 : ℝ)), ((12 : ℝ))) ((102 : ℝ), (12 : ℝ)) =
    (0 : ℝ) := by
  unfold angleKey
  rw [show (((102 : ℝ), (12 : ℝ))).2 - ((((48 : ℝ)), ((12 : ℝ)))).2 = 0 by norm_num, show (((102 : ℝ), (12 : ℝ))).1 - ((((48 : ℝ)), ((12 : ℝ)))).1 = 54 by norm_num, atan2_pos_x (by norm_num), show ((0 : ℝ)) / 54 = 0 by norm_num, Real.arctan_zero]
lemma coW_key4 : angleKey (((48 : ℝ)), ((12 : ℝ))) ((86 : ℝ), (24 : ℝ)) =
    Real.arctan (6 / 19) := by
  unfold angleKey
  rw [show (((86 : ℝ), (24 : ℝ))).2 - ((((48 : ℝ)), ((12 : ℝ)))).2 = 12 by norm_num, show (((86 : ℝ), (24 : ℝ))).1 - ((((48 : ℝ)), ((12 : ℝ)))).1 = 38 by norm_num, atan2_pos_x (by norm_num), show ((12 : ℝ)) / 38 = 6 / 19 by norm_num]
lemma coW_key5 : angleKey (((48 : ℝ)), ((12 : ℝ))) ((10 : ℝ), (24 : ℝ)) =
    -Real.arctan (6 / 19) + Real.pi := by
  unfold angleKey
  rw [show (((10 : ℝ), (24 : ℝ))).2 - ((((48 : ℝ)), ((12 : ℝ)))).2 = 12 by norm_num, show (((10 : ℝ), (24 : ℝ))).1 - ((((48 : ℝ)), ((12 : ℝ)))).1 = -38 by norm_num, atan2_neg_x_nonneg (by norm_num) (by norm_num), show ((12 : ℝ)) / (-38) = -(6 / 19) by norm_num, Real.arctan_neg]
lemma coW_key6 : angleKey (((48 : ℝ)), ((12 : ℝ))) (((-6 : ℝ)), (12 : ℝ)) =
    Real.pi := by
  unfold angleKey
  rw [show ((((-6 : ℝ)), (12 : ℝ))).2 - ((((48 : ℝ)), ((12 : ℝ)))).2 = 0 by norm_num, show ((((-6 : ℝ)), (12 : ℝ))).1 - ((((48 : ℝ)), ((12 : ℝ)))).1 = -54 by norm_num, atan2_neg_x_nonneg (by norm_num) (by norm_num), show ((0 : ℝ)) / (-54) = 0 by norm_num, Real.arctan_zero, zero_add]

lemma coW_ord_centroid : centroid [((10 : ℝ), (0 : ℝ)), ((86 : ℝ), (0 : ℝ)), ((102 : ℝ), (12 : ℝ)), ((86 : ℝ), (24 : ℝ)), ((10 : ℝ), (24 : ℝ)), (((-6 : ℝ)), (12 : ℝ))] = (((48 : ℝ)), ((12 : ℝ))) := by
  unfold centroid
  norm_num

lemma coW_order : orderByAngle [((10 : ℝ), (0 : ℝ)), ((86 : ℝ), (0 : ℝ)), ((102 : ℝ), (12 : ℝ)), ((86 : ℝ), (24 : ℝ)), ((10 : ℝ), (24 : ℝ)), (((-6 : ℝ)), (12 : ℝ))] =
    [((10 : ℝ), (0 : ℝ)), ((86 : ℝ), (0 : ℝ)), ((102 : ℝ), (12 : ℝ)), ((86 : ℝ), (24 : ℝ)), ((10 : ℝ), (24 : ℝ)), (((-6 : ℝ)), (12 : ℝ))] := by
  have hpi := Real.pi_pos
  have ha : 0 < Real.arctan (6 / 19) := by
    have h := Real.arctan_strictMono (show (0 : ℝ) < 6 / 19 by norm_num)
    rwa [Real.arctan_zero] at h
  have hb2 : Real.arctan (6 / 19) < Real.pi / 2 := Real.arctan_lt_pi_div_two _
  unfold orderByAngle
  simp only [coW_ord_centroid]
  apply List.Sorted.insertionSort_eq
  refine List.sorted_cons.mpr ⟨?_, List.sorted_cons.mpr ⟨?_, List.sorted_cons.mpr ⟨?_,
    List.sorted_cons.mpr ⟨?_, List.sorted_cons.mpr ⟨?_, List.sorted_singleton _⟩⟩⟩⟩⟩
  · intro b hb
    rcases (show b = ((86 : ℝ), (0 : ℝ)) ∨ b = ((102 : ℝ), (12 : ℝ)) ∨ b = ((86 : ℝ), (24 : ℝ)) ∨ b = ((10 : ℝ), (24 : ℝ)) ∨ b = (((-6 : ℝ)), (12 : ℝ)) by simpa using hb) with rfl | rfl | rfl | rfl | rfl
    · show angleKey _ _ ≤ angleKey _ _
      rw [coW_key1, coW_key2]
      linarith
    · show angleKey _ _ ≤ angleKey _ _
      rw [coW_key1, coW_key3]
      linarith
    · show angleKey _ _ ≤ angleKey _ _
      rw [coW_key1, coW_key4]
      linarith
    · show angleKey _ _ ≤ angleKey _ _
      rw [coW_key1, coW_key5]
      linarith
    · show angleKey _ _ ≤ angleKey _ _
      rw [coW_key1, coW_key6]
      linarith
  · intro b hb
    rcases (show b = ((102 : ℝ), (12 : ℝ)) ∨ b = ((86 : ℝ), (24 : ℝ)) ∨ b = ((10 : ℝ), (24 : ℝ)) ∨ b = (((-6 : ℝ)), (12 : ℝ)) by simpa using hb) with rfl | rfl | rfl | rfl
    · show angleKey _ _ ≤ angleKey _ _
      rw [coW_key2, coW_key3]
      linarith
    · show angleKey _ _ ≤ angleKey _ _
      rw [coW_key2, coW_key4]
      linarith
    · show angleKey _ _ ≤ angleKey _ _
      rw [coW_key2, coW_key5]
      linarith
    · show angleKey _ _ ≤ angleKey _ _
      rw [coW_key2, coW_key6]
      linarith
  · intro b hb
    rcases (show b = ((86 : ℝ), (24 : ℝ)) ∨ b = ((10 : ℝ), (24 : ℝ)) ∨ b = (((-6 : ℝ)), (12 : ℝ)) by simpa using hb) with rfl | rfl | rfl
    · show angleKey _ _ ≤ angleKey _ _
      rw [coW_key3, coW_key4]
      linarith
    · show angleKey _ _ ≤ angleKey _ _
      rw [coW_key3, coW_key5]
      linarith
    · show angleKey _ _ ≤ angleKey _ _
      rw [coW_key3, coW_key6]
      linarith
  · intro b hb
    rcases (show b = ((10 : ℝ), (24 : ℝ)) ∨ b = (((-6 : ℝ)), (12 : ℝ)) by simpa using hb) with rfl | rfl
    · show angleKey _ _ ≤ angleKey _ _
      rw [coW_key4, coW_key5]
      linarith
    · show angleKey _ _ ≤ angleKey _ _
      rw [coW_key4, coW_key6]
      linarith
  · intro b hb
    rcases (show b = (((-6 : ℝ)), (12 : ℝ)) by simpa using hb) with rfl
    show angleKey _ _ ≤ angleKey _ _
    rw [coW_key5, coW_key6]
    linarith

lemma coW_area : polygonArea [((10 : ℝ), (0 : ℝ)), ((86 : ℝ), (0 : ℝ)), ((102 : ℝ), (12 : ℝ)), ((86 : ℝ), (24 : ℝ)), ((10 : ℝ), (24 : ℝ)), (((-6 : ℝ)), (12 : ℝ))] = 2208 := by
  unfold polygonArea
  rw [if_neg (by simp)]
  show |((10 : ℝ) * (0 : ℝ) - (0 : ℝ) * (86 : ℝ)) + (((86 : ℝ) * (12 : ℝ) - (0 : ℝ) * (102 : ℝ)) + (((102 : ℝ) * (24 : ℝ) - (12 : ℝ) * (86 : ℝ)) + (((86 : ℝ) * (24 : ℝ) - (24 : ℝ) * (10 : ℝ)) + (((10 : ℝ) * (12 : ℝ) - (24 : ℝ) * ((-6 : ℝ))) + ((((-6 : ℝ)) * (0 : ℝ) - (12 : ℝ) * (10 : ℝ)) + 0)))))| / 2 = 2208
  rw [show ((10 : ℝ) * (0 : ℝ) - (0 : ℝ) * (86 : ℝ)) + (((86 : ℝ) * (12 : ℝ) - (0 : ℝ) * (102 : ℝ)) + (((102 : ℝ) * (24 : ℝ) - (12 : ℝ) * (86 : ℝ)) + (((86 : ℝ) * (24 : ℝ) - (24 : ℝ) * (10 : ℝ)) + (((10 : ℝ) * (12 : ℝ) - (24 : ℝ) * ((-6 : ℝ))) + ((((-6 : ℝ)) * (0 : ℝ) - (12 : ℝ) * (10 : ℝ)) + 0))))) = (4416 : ℝ) by norm_num, abs_of_nonneg (by norm_num : (0 : ℝ) ≤ 4416)]
  norm_num

lemma coW_centroid : centroid coW = (((39 : ℝ)), ((21 / 2 : ℝ))) := by
  unfold centroid coW
  norm_num

lemma coW_avgR : 12 ≤ avgRadius coW := by
  have r0 : (12 : ℝ) ≤ dist ((10 : ℝ), (0 : ℝ)) (((39 : ℝ)), ((21 / 2 : ℝ))) := by
    unfold dist
    rw [Real.le_sqrt' (by norm_num)]
    norm_num
  have r1 : (12 : ℝ) ≤ dist ((48 : ℝ), (0 : ℝ)) (((39 : ℝ)), ((21 / 2 : ℝ))) := by
    unfold dist
    rw [Real.le_sqrt' (by norm_num)]
    norm_num
  have r2 : (12 : ℝ) ≤ dist ((86 : ℝ), (0 : ℝ)) (((39 : ℝ)), ((21 / 2 : ℝ))) := by
    unfold dist
    rw [Real.le_sqrt' (by norm_num)]
    norm_num
  have r3 : (12 : ℝ) ≤ dist ((102 : ℝ), (12 : ℝ)) (((39 : ℝ)), ((21 / 2 : ℝ))) := by
    unfold dist
    rw [Real.le_sqrt' (by norm_num)]
    norm_num
  have r4 : (12 : ℝ) ≤ dist ((86 : ℝ), (24 : ℝ)) (((39 : ℝ)), ((21 / 2 : ℝ))) := by
    unfold dist
    rw [Real.le_sqrt' (by norm_num)]
    norm_num
  have r5 : (12 : ℝ) ≤ dist ((48 : ℝ), (24 : ℝ)) (((39 : ℝ)), ((21 / 2 : ℝ))) := by
    unfold dist
    rw [Real.le_sqrt' (by norm_num)]
    norm_num
  have r6 : (12 : ℝ) ≤ dist ((10 : ℝ), (24 : ℝ)) (((39 : ℝ)), ((21 / 2 : ℝ))) := by
    unfold dist
    rw [Real.le_sqrt' (by norm_num)]
    norm_num
  have r7 : (12 : ℝ) ≤ dist (((-6 : ℝ)), (12 : ℝ)) (((39 : ℝ)), ((21 / 2 : ℝ))) := by
    unfold dist
    rw [Real.le_sqrt' (by norm_num)]
    norm_num
  have r8 : (12 : ℝ) ≤ dist ((0 : ℝ), (7 : ℝ)) (((39 : ℝ)), ((21 / 2 : ℝ))) := by
    unfold dist
    rw [Real.le_sqrt' (by norm_num)]
    norm_num
  have r9 : (12 : ℝ) ≤ dist ((6 : ℝ), (2 : ℝ)) (((39 : ℝ)), ((21 / 2 : ℝ))) := by
    unfold dist
    rw [Real.le_sqrt' (by norm_num)]
    norm_num
  unfold avgRadius
  simp only [coW_centroid]
  show (12 : ℝ) ≤ (dist ((10 : ℝ), (0 : ℝ)) (((39 : ℝ)), ((21 / 2 : ℝ))) + (dist ((48 : ℝ), (0 : ℝ)) (((39 : ℝ)), ((21 / 2 : ℝ))) + (dist ((86 : ℝ), (0 : ℝ)) (((39 : ℝ)), ((21 / 2 : ℝ))) + (dist ((102 : ℝ), (12 : ℝ)) (((39 : ℝ)), ((21 / 2 : ℝ))) + (dist ((86 : ℝ), (24 : ℝ)) (((39 : ℝ)), ((21 / 2 : ℝ))) + (dist ((48 : ℝ), (24 : ℝ)) (((39 : ℝ)), ((21 / 2 : ℝ))) + (dist ((10 : ℝ), (24 : ℝ)) (((39 : ℝ)), ((21 / 2 : ℝ))) + (dist (((-6 : ℝ)), (12 : ℝ)) (((39 : ℝ)), ((21 / 2 : ℝ))) + (dist ((0 : ℝ), (7 : ℝ)) (((39 : ℝ)), ((21 / 2 : ℝ))) + (dist ((6 : ℝ), (2 : ℝ)) (((39 : ℝ)), ((21 / 2 : ℝ))) + 0)))))))))) / ((10 : ℕ) : ℝ)
  rw [show ((10 : ℕ) : ℝ) = 10 by norm_num, le_div_iff (by norm_num : (0 : ℝ) < 10)]
  linarith

lemma coW_closed : dist coW.headI coW.getLastI < max 18 (perimeter coW * 0.08) := by
  show dist ((10 : ℝ), (0 : ℝ)) ((6 : ℝ), (2 : ℝ)) < _
  rw [coW_closing_dist]
  exact lt_of_lt_of_le (by nlinarith [sqrt20_bounds.2]) (le_max_left _ _)

/-- **C4.** In the circle/oval detector, once the sample-count, closure, simplified
polygon size, area/perimeter and radius guards pass: if both scores are below the
0.18 floor no match is returned, and if at least one reaches the floor the shape with
the higher score wins (circle on ties), with confidence
`min(99, round(60 + circleScore * 39))` for circle and
`min(99, round(55 + ovalScore * 44))` for oval. -/
theorem C4_circleOrOval_scoring (pts : List Point)
    (h10 : 10 ≤ pts.length)
    (hcl : dist pts.headI pts.getLastI < max 18 (perimeter pts * 0.08))
    (h6 : 6 ≤ (coPoly pts).length)
    (hA : 0 < polygonArea (orderByAngle (coPoly pts)))
    (hP : 0 < perimeter pts)
    (hR : 12 ≤ avgRadius pts) :
    (circleScoreOf pts < 0.18 ∧ ovalScoreOf pts < 0.18 → circleOrOval pts = none) ∧
    ((0.18 ≤ circleScoreOf pts ∨ 0.18 ≤ ovalScoreOf pts) →
      circleOrOval pts =
        if ovalScoreOf pts ≤ circleScoreOf pts then
          some ("CIRCLE", min 99 (jround (60 + circleScoreOf pts * 39)))
        else some ("OVAL", min 99 (jround (55 + ovalScoreOf pts * 44)))) := by
  unfold circleOrOval
  rw [if_neg (by omega), if_neg (not_not_intro hcl), if_neg (by omega),
    if_neg (by push_neg; exact ⟨hA, hP⟩), if_neg (not_lt.mpr hR)]
  constructor
  · intro hlow
    rw [if_pos hlow]
  · intro hhigh
    rw [if_neg (fun hcon => by rcases hhigh with h | h <;> · rcases hcon with ⟨h1, h2⟩; linarith)]

/-- Witness for C4: the concrete input `coW` passes every guard of the detector, so
the scoring-stage characterisation applies to it. -/
theorem C4_witness :
    10 ≤ coW.length ∧
    dist coW.headI coW.getLastI < max 18 (perimeter coW * 0.08) ∧
    6 ≤ (coPoly coW).length ∧
    0 < polygonArea (orderByAngle (coPoly coW)) ∧
    0 < perimeter coW ∧
    12 ≤ avgRadius coW ∧
    ((circleScoreOf coW < 0.18 ∧ ovalScoreOf coW < 0.18 → circleOrOval coW = none) ∧
     ((0.18 ≤ circleScoreOf coW ∨ 0.18 ≤ ovalScoreOf coW) →
       circleOrOval coW =
         if ovalScoreOf coW ≤ circleScoreOf coW then
           some ("CIRCLE", min 99 (jround (60 + circleScoreOf coW * 39)))
         else some ("OVAL", min 99 (jround (55 + ovalScoreOf coW * 44))))) := by
  have h10 : 10 ≤ coW.length := by simp [coW]
  have hcl := coW_closed
  have h6 : 6 ≤ (coPoly coW).length := by rw [coW_coPoly]; simp
  have hA : 0 < polygonArea (orderByAngle (coPoly coW)) := by
    rw [coW_coPoly, coW_order, coW_area]
    norm_num
  have hP : 0 < perimeter coW := lt_trans (by norm_num) coW_perim_lb
  have hR := coW_avgR
  exact ⟨h10, hcl, h6, hA, hP, hR,
    C4_circleOrOval_scoring coW h10 hcl h6 hA hP hR⟩


/-! ## C8: the monotone-chain convex hull keeps every input point inside -/

lemma lexLe_refl (a : Point) : lexLe a a := Or.inr ⟨rfl, le_refl _⟩

lemma lexLe_trans {a b c : Point} (h1 : lexLe a b) (h2 : lexLe b c) : lexLe a c := by
  rcases h1 with h1 | ⟨h1, h1'⟩ <;> rcases h2 with h2 | ⟨h2, h2'⟩
  · exact Or.inl (lt_trans h1 h2)
  · exact Or.inl (by rw [← h2]; exact h1)
  · exact Or.inl (by rw [h1]; exact h2)
  · exact Or.inr ⟨h1.trans h2, le_trans h1' h2'⟩

lemma lexLe_total (a b : Point) : lexLe a b ∨ lexLe b a := by
  rcases lt_trichotomy a.1 b.1 with h | h | h
  · exact Or.inl (Or.inl h)
  · rcases le_total a.2 b.2 with h2 | h2
    · exact Or.inl (Or.inr ⟨h, h2⟩)
    · exact Or.inr (Or.inr ⟨h.symm, h2⟩)
  · exact Or.inr (Or.inl h)

lemma lexLe_fst {a b : Point} (h : lexLe a b) : a.1 ≤ b.1 := by
  rcases h with h | ⟨h, _⟩
  · exact le_of_lt h
  · exact le_of_eq h

lemma lexLe_snd_of_fst_eq {a b : Point} (h : lexLe a b) (he : a.1 = b.1) : a.2 ≤ b.2 := by
  rcases h with h | ⟨_, h⟩
  · rw [he] at h
    exact absurd h (lt_irrefl _)
  · exact h

/-! cross identities -/

lemma cross_id1 (a b p q : Point) :
    (b.1 - a.1) * cross a p q = (p.1 - a.1) * cross a b q - (q.1 - a.1) * cross a b p := by
  unfold cross
  ring

lemma cross_id2 (a b p q : Point) :
    (p.1 - b.1) * cross a p q = (p.1 - a.1) * cross b p q + (q.1 - p.1) * cross a b p := by
  unfold cross
  ring

lemma cross_swap (o u v : Point) : cross o u v = -cross o v u := by
  unfold cross
  ring

lemma cross_right_self (o u : Point) : cross o u u = 0 := by
  unfold cross
  ring

lemma cross_right_base (o u : Point) : cross o u o = 0 := by
  unfold cross
  ring

/-! transfer lemmas -/

lemma cov_trans1 {a b p q : Point} (haq : lexLe a q) (hqb : lexLe q b) (hbp : lexLe b p)
    (hpop : cross a b p ≤ 0) (hcov : 0 ≤ cross a b q) : 0 ≤ cross a p q := by
  have haq1 := lexLe_fst haq
  have hqb1 := lexLe_fst hqb
  have hbp1 := lexLe_fst hbp
  rcases eq_or_lt_of_le (le_trans haq1 hqb1) with hab | hab
  · -- vertical chord a-b
    have hq1 : q.1 = a.1 := le_antisymm (by rw [hab]; exact hqb1) haq1
    have ha2 : a.2 ≤ q.2 := lexLe_snd_of_fst_eq haq hq1.symm
    have h0 : q.1 - a.1 = 0 := by rw [hq1]; ring
    have h00 : (p.2 - a.2) * (q.1 - a.1) = 0 := by rw [h0, mul_zero]
    have hm : 0 ≤ (p.1 - a.1) * (q.2 - a.2) :=
      mul_nonneg (by linarith) (by linarith)
    unfold cross
    linarith
  · have hid := cross_id1 a b p q
    have ht1 : 0 ≤ (p.1 - a.1) * cross a b q := mul_nonneg (by linarith) hcov
    have ht2 : (q.1 - a.1) * cross a b p ≤ 0 :=
      mul_nonpos_iff.mpr (Or.inl ⟨by linarith, hpop⟩)
    have hge : 0 ≤ (b.1 - a.1) * cross a p q := by rw [hid]; linarith
    by_contra hneg
    push_neg at hneg
    have hp := mul_pos (sub_pos.mpr hab) (neg_pos.mpr hneg)
    nlinarith [hge, hp]

lemma cov_trans2 {a b p q : Point} (hab : lexLe a b) (hbq : lexLe b q) (hqp : lexLe q p)
    (hbp : lexLe b p) (hpop : cross a b p ≤ 0) (hcov : 0 ≤ cross b p q) :
    0 ≤ cross a p q := by
  have hab1 := lexLe_fst hab
  have hbq1 := lexLe_fst hbq
  have hqp1 := lexLe_fst hqp
  have hbp1 := lexLe_fst hbp
  rcases eq_or_lt_of_le hbp1 with hbp1e | hbp1l
  · -- b.1 = p.1, hence q.1 = b.1 = p.1
    have hq1 : q.1 = b.1 := le_antisymm (by rw [hbp1e]; exact hqp1) hbq1
    have hb2p : b.2 ≤ p.2 := lexLe_snd_of_fst_eq hbp hbp1e
    have hfac : (b.1 - a.1) * (p.2 - b.2) ≤ 0 := by
      have : cross a b p = (b.1 - a.1) * (p.2 - b.2) := by
        unfold cross
        rw [show p.1 = b.1 from hbp1e.symm]
        ring
      linarith [hpop, this.symm.le, this.le]
    rcases mul_nonpos_iff.mp hfac with ⟨hx, hy⟩ | ⟨hx, hy⟩
    · -- b.1 - a.1 ≥ 0 and p.2 - b.2 ≤ 0, so p.2 = b.2, hence p = b and q = p
      have hp2 : p.2 = b.2 := le_antisymm (by linarith) hb2p
      have hq2 : q.2 = p.2 := by
        have h1 : b.2 ≤ q.2 := lexLe_snd_of_fst_eq hbq hq1.symm
        have h2 : q.2 ≤ p.2 := lexLe_snd_of_fst_eq hqp (by rw [hq1, hbp1e])
        linarith
      have hcz : cross a p q = 0 := by
        unfold cross
        rw [show q.1 = p.1 by rw [hq1, hbp1e], hq2]
        ring
      linarith [hcz.le, hcz.symm.le]
    · -- b.1 - a.1 ≤ 0: a.1 = b.1 = q.1 = p.1, cross a p q = 0
      have hab1e : a.1 = b.1 := le_antisymm hab1 (by linarith)
      have hcz : cross a p q = 0 := by
        unfold cross
        rw [show q.1 = a.1 by rw [hq1, hab1e], show p.1 = a.1 by rw [← hbp1e, hab1e]]
        ring
      linarith [hcz.le, hcz.symm.le]
  · have hid := cross_id2 a b p q
    have ht1 : 0 ≤ (p.1 - a.1) * cross b p q := mul_nonneg (by linarith) hcov
    have ht2 : 0 ≤ (q.1 - p.1) * cross a b p :=
      mul_nonneg_iff.mpr (Or.inr ⟨by linarith, hpop⟩)
    have hge : 0 ≤ (p.1 - b.1) * cross a p q := by rw [hid]; linarith
    by_contra hneg
    push_neg at hneg
    have hp := mul_pos (sub_pos.mpr hbp1l) (neg_pos.mpr hneg)
    nlinarith [hge, hp]

/-! stack machinery -/

/-- Coverage of `q` by an adjacent stack pair: the deeper point `a` sits at `i+1`,
the shallower `b` at `i`, and `q` lies lex-between them, on or left of `a -> b`. -/
def ChordCov (st : List Point) (q : Point) : Prop :=
  ∃ i a b, st[i + 1]? = some a ∧ st[i]? = some b ∧ lexLe a q ∧ lexLe q b ∧ 0 ≤ cross a b q

def Cov (st : List Point) (q : Point) : Prop := q ∈ st ∨ ChordCov st q

lemma hullStep_suffix (p : Point) : ∀ st : List Point, List.IsSuffix (hullStep p st) st := by
  intro st
  induction st with
  | nil => exact List.suffix_rfl
  | cons b st' ih =>
      rcases st' with _ | ⟨a, rest⟩
      · exact List.suffix_rfl
      · by_cases hc : cross a b p ≤ 0
        · rw [show hullStep p (b :: a :: rest) =
            if cross a b p ≤ 0 then hullStep p (a :: rest) else b :: a :: rest from rfl,
            if_pos hc]
          exact ih.trans (List.suffix_cons b (a :: rest))
        · rw [show hullStep p (b :: a :: rest) =
            if cross a b p ≤ 0 then hullStep p (a :: rest) else b :: a :: rest from rfl,
            if_neg hc]

lemma hullStep_ne_nil (p : Point) : ∀ st : List Point, st ≠ [] → hullStep p st ≠ [] := by
  intro st
  induction st with
  | nil => intro h; exact absurd rfl h
  | cons b st' ih =>
      intro _
      rcases st' with _ | ⟨a, rest⟩
      · exact List.cons_ne_nil _ _
      · by_cases hc : cross a b p ≤ 0
        · rw [show hullStep p (b :: a :: rest) =
            if cross a b p ≤ 0 then hullStep p (a :: rest) else b :: a :: rest from rfl,
            if_pos hc]
          exact ih (List.cons_ne_nil _ _)
        · rw [show hullStep p (b :: a :: rest) =
            if cross a b p ≤ 0 then hullStep p (a :: rest) else b :: a :: rest from rfl,
            if_neg hc]
          exact List.cons_ne_nil _ _

lemma hullStep_chain (p : Point) (st : List Point)
    (hchain : List.Chain' (fun x y => lexLe y x) st) (hle : ∀ x ∈ st, lexLe x p) :
    List.Chain' (fun x y => lexLe y x) (p :: hullStep p st) := by
  refine List.chain'_cons'.mpr ⟨?_, hchain.suffix (hullStep_suffix p st)⟩
  intro y hy
  exact hle y ((hullStep_suffix p st).sublist.subset (List.mem_of_mem_head? hy))

lemma hullStep_cov (p q : Point) : ∀ st : List Point,
    List.Chain' (fun x y => lexLe y x) st →
    (∀ x ∈ st, lexLe x p) →
    (Cov st q ∨ (st ≠ [] ∧ lexLe st.headI q ∧ lexLe q p ∧ 0 ≤ cross st.headI p q)) →
    Cov (p :: hullStep p st) q := by
  intro st
  induction st with
  | nil =>
      intro _ _ hq
      rcases hq with hq | hq
      · rcases hq with hq | ⟨i, a, b, hia, _, _⟩
        · exact absurd hq (List.not_mem_nil q)
        · simp at hia
      · exact absurd rfl hq.1
  | cons b st' ih =>
      intro hchain hle hq
      rcases st' with _ | ⟨a, rest⟩
      · -- st = [b]
        show Cov [p, b] q
        rcases hq with hq | ⟨_, h1, h2, h3⟩
        · rcases hq with hq | ⟨i, a', b', hia, _, _⟩
          · exact Or.inl (by simpa using Or.inr (List.mem_singleton.mp hq))
          · rcases i with _ | j <;> simp at hia
        · exact Or.inr ⟨0, b, p, by simp, by simp, h1, h2, h3⟩
      · by_cases hc : cross a b p ≤ 0
        · -- pop b
          rw [show hullStep p (b :: a :: rest) =
            if cross a b p ≤ 0 then hullStep p (a :: rest) else b :: a :: rest from rfl,
            if_pos hc]
          have hba : lexLe a b := (List.chain'_cons.mp hchain).1
          have hbp : lexLe b p := hle b (List.mem_cons_self _ _)
          apply ih hchain.tail (fun x hx => hle x (List.mem_cons_of_mem _ hx))
          rcases hq with hq | ⟨_, h1, h2, h3⟩
          · rcases hq with hq | ⟨i, a', b', hia, hib, hl1, hl2, hcr⟩
            · rcases List.mem_cons.mp hq with rfl | hq'
              · -- q = b got popped: covered by virtual chord (a, p)
                refine Or.inr ⟨List.cons_ne_nil _ _, hba, hbp, ?_⟩
                show 0 ≤ cross a p q
                have := cross_swap a p q
                rw [this]
                have hs : cross a q p ≤ 0 := hc
                linarith
              · exact Or.inl (Or.inl hq')
            · rcases i with _ | j
              · -- top pair (a, b)
                have ha' : a = a' := by simpa using hia
                have hb' : b = b' := by simpa using hib
                subst ha'
                subst hb'
                exact Or.inr ⟨List.cons_ne_nil _ _, hl1,
                  lexLe_trans hl2 hbp, cov_trans1 hl1 hl2 hbp hc hcr⟩
              · -- deeper pair: still present in a :: rest
                refine Or.inl (Or.inr ⟨j, a', b', ?_, ?_, hl1, hl2, hcr⟩)
                · simpa using hia
                · simpa using hib
          · -- virtual chord (b, p) transfers to (a, p)
            refine Or.inr ⟨List.cons_ne_nil _ _, lexLe_trans hba h1, h2, ?_⟩
            exact cov_trans2 hba h1 h2 hbp hc h3
        · -- no pop
          rw [show hullStep p (b :: a :: rest) =
            if cross a b p ≤ 0 then hullStep p (a :: rest) else b :: a :: rest from rfl,
            if_neg hc]
          rcases hq with hq | ⟨_, h1, h2, h3⟩
          · rcases hq with hq | ⟨i, a', b', hia, hib, hl1, hl2, hcr⟩
            · exact Or.inl (List.mem_cons_of_mem _ hq)
            · refine Or.inr ⟨i + 1, a', b', ?_, ?_, hl1, hl2, hcr⟩
              · simpa using hia
              · simpa using hib
          · exact Or.inr ⟨0, b, p, by simp, by simp, h1, h2, h3⟩

lemma buildLoop_chain : ∀ l st : List Point,
    List.Chain' (fun x y => lexLe y x) st →
    (∀ x ∈ st, ∀ y ∈ l, lexLe x y) →
    List.Sorted lexLe l →
    List.Chain' (fun x y => lexLe y x) (buildLoop l st) := by
  intro l
  induction l with
  | nil => intro st hchain _ _; exact hchain
  | cons p rest ih =>
      intro st hchain hsl hsort
      show List.Chain' _ (buildLoop rest (p :: hullStep p st))
      have hlep : ∀ x ∈ st, lexLe x p := fun x hx => hsl x hx p (List.mem_cons_self _ _)
      refine ih (p :: hullStep p st) (hullStep_chain p st hchain hlep) ?_ hsort.of_cons
      intro x hx y hy
      rcases List.mem_cons.mp hx with rfl | hx'
      · exact (List.sorted_cons.mp hsort).1 y hy
      · exact hsl x ((hullStep_suffix p st).sublist.subset hx') y (List.mem_cons_of_mem _ hy)

lemma buildLoop_cov (q : Point) : ∀ l st : List Point,
    List.Chain' (fun x y => lexLe y x) st →
    (∀ x ∈ st, ∀ y ∈ l, lexLe x y) →
    List.Sorted lexLe l →
    (Cov st q ∨ q ∈ l) →
    Cov (buildLoop l st) q := by
  intro l
  induction l with
  | nil =>
      intro st _ _ _ hq
      rcases hq with hq | hq
      · exact hq
      · exact absurd hq (List.not_mem_nil q)
  | cons p rest ih =>
      intro st hchain hsl hsort hq
      show Cov (buildLoop rest (p :: hullStep p st)) q
      have hlep : ∀ x ∈ st, lexLe x p := fun x hx => hsl x hx p (List.mem_cons_self _ _)
      refine ih (p :: hullStep p st) (hullStep_chain p st hchain hlep) ?_ hsort.of_cons ?_
      · intro x hx y hy
        rcases List.mem_cons.mp hx with rfl | hx'
        · exact (List.sorted_cons.mp hsort).1 y hy
        · exact hsl x ((hullStep_suffix p st).sublist.subset hx') y (List.mem_cons_of_mem _ hy)
      · rcases hq with hq | hq
        · exact Or.inl (hullStep_cov p q st hchain hlep (Or.inl hq))
        · rcases List.mem_cons.mp hq with rfl | hq'
          · exact Or.inl (Or.inl (List.mem_cons_self _ _))
          · exact Or.inr hq'

/-! endpoints and length of the chain stack -/

lemma buildLoop_getLast? : ∀ l st : List Point, st ≠ [] →
    (buildLoop l st).getLast? = st.getLast? := by
  intro l
  induction l with
  | nil => intro st _; rfl
  | cons p rest ih =>
      intro st hst
      show (buildLoop rest (p :: hullStep p st)).getLast? = _
      rw [ih _ (List.cons_ne_nil _ _)]
      obtain ⟨t, ht⟩ := hullStep_suffix p st
      have hne := hullStep_ne_nil p st hst
      calc (p :: hullStep p st).getLast? = (hullStep p st).getLast? := by
            rcases hq : (hullStep p st).getLast? with _ | x
            · exact absurd (List.getLast?_eq_none_iff.mp hq) hne
            · rw [List.getLast?_cons, hq]
              rfl
        _ = st.getLast? := by
            conv_rhs => rw [← ht]
            exact (List.getLast?_append_of_ne_nil t hne).symm

lemma buildLoop_head? : ∀ l st : List Point, l ≠ [] →
    (buildLoop l st).head? = l.getLast? := by
  intro l
  induction l with
  | nil => intro _ h; exact absurd rfl h
  | cons p rest ih =>
      intro st _
      rcases hr : rest with _ | ⟨r, rest'⟩
      · rfl
      · subst hr
        show (buildLoop (r :: rest') (p :: hullStep p st)).head? = _
        rw [ih _ (List.cons_ne_nil _ _)]
        rw [List.getLast?_cons_cons]

lemma hullStep_length (p : Point) (st : List Point) (h : st ≠ []) :
    1 ≤ (hullStep p st).length := by
  have := hullStep_ne_nil p st h
  rcases hq : hullStep p st with _ | ⟨x, xs⟩
  · exact absurd hq this
  · simp

lemma buildLoop_length : ∀ l st : List Point, st ≠ [] → l ≠ [] →
    2 ≤ (buildLoop l st).length := by
  intro l
  induction l with
  | nil => intro _ _ h; exact absurd rfl h
  | cons p rest ih =>
      intro st hst _
      show 2 ≤ (buildLoop rest (p :: hullStep p st)).length
      rcases hr : rest with _ | ⟨r, rest'⟩
      · show 2 ≤ (p :: hullStep p st).length
        have := hullStep_length p st hst
        simp only [List.length_cons]
        omega
      · rw [hr] at ih
        exact ih _ (List.cons_ne_nil _ _) (List.cons_ne_nil _ _)

/-! negation symmetry, for the upper chain -/

lemma cross_neg (o u v : Point) : cross (-o) (-u) (-v) = cross o u v := by
  unfold cross
  simp only [Prod.fst_neg, Prod.snd_neg]
  ring

lemma lexLe_neg {a b : Point} : lexLe (-b) (-a) ↔ lexLe a b := by
  unfold lexLe
  simp only [Prod.fst_neg, Prod.snd_neg]
  constructor
  · rintro (h | ⟨h1, h2⟩)
    · exact Or.inl (by linarith)
    · exact Or.inr ⟨by linarith, by linarith⟩
  · rintro (h | ⟨h1, h2⟩)
    · exact Or.inl (by linarith)
    · exact Or.inr ⟨by linarith, by linarith⟩

lemma hullStep_neg (p : Point) : ∀ st : List Point,
    hullStep (-p) (st.map Neg.neg) = (hullStep p st).map Neg.neg := by
  intro st
  induction st with
  | nil => rfl
  | cons b st' ih =>
      rcases st' with _ | ⟨a, rest⟩
      · rfl
      · by_cases hc : cross a b p ≤ 0
        · have e1 : hullStep p (b :: a :: rest) = hullStep p (a :: rest) := by
            rw [show hullStep p (b :: a :: rest) =
              if cross a b p ≤ 0 then hullStep p (a :: rest) else b :: a :: rest from rfl,
              if_pos hc]
          have e2 : hullStep (-p) ((b :: a :: rest).map Neg.neg) =
              hullStep (-p) ((a :: rest).map Neg.neg) := by
            simp only [List.map_cons]
            rw [show hullStep (-p) (-b :: -a :: rest.map Neg.neg) =
              if cross (-a) (-b) (-p) ≤ 0 then hullStep (-p) (-a :: rest.map Neg.neg)
              else -b :: -a :: rest.map Neg.neg from rfl,
              if_pos (by rw [cross_neg]; exact hc)]
          rw [e1, e2]
          exact ih
        · have e1 : hullStep p (b :: a :: rest) = b :: a :: rest := by
            rw [show hullStep p (b :: a :: rest) =
              if cross a b p ≤ 0 then hullStep p (a :: rest) else b :: a :: rest from rfl,
              if_neg hc]
          have e2 : hullStep (-p) ((b :: a :: rest).map Neg.neg) =
              (b :: a :: rest).map Neg.neg := by
            simp only [List.map_cons]
            rw [show hullStep (-p) (-b :: -a :: rest.map Neg.neg) =
              if cross (-a) (-b) (-p) ≤ 0 then hullStep (-p) (-a :: rest.map Neg.neg)
              else -b :: -a :: rest.map Neg.neg from rfl,
              if_neg (by rw [cross_neg]; exact hc)]
          rw [e1, e2]

lemma buildLoop_neg : ∀ l st : List Point,
    buildLoop (l.map Neg.neg) (st.map Neg.neg) = (buildLoop l st).map Neg.neg := by
  intro l
  induction l with
  | nil => intro st; rfl
  | cons p rest ih =>
      intro st
      show buildLoop (rest.map Neg.neg) (-p :: hullStep (-p) (st.map Neg.neg)) = _
      rw [hullStep_neg, ← List.map_cons]
      exact ih _

lemma getElem?_eq_some_get {st : List Point} {i : ℕ} (h : i < st.length) :
    st[i]? = some (st.get ⟨i, h⟩) := by
  rw [List.getElem?_eq_getElem h, List.get_eq_getElem]

/-- On a chain-sorted stack with at least two entries, plain membership upgrades to
coverage by an adjacent pair (using a degenerate chord through the point itself). -/
lemma cov_pair {st : List Point} {q : Point} (hlen : 2 ≤ st.length)
    (hchain : List.Chain' (fun x y => lexLe y x) st) (hcov : Cov st q) :
    ChordCov st q := by
  rcases hcov with hmem | hch
  · obtain ⟨⟨i, hi⟩, hqi⟩ := List.mem_iff_get.mp hmem
    by_cases hlast : i + 1 < st.length
    · refine ⟨i, st.get ⟨i + 1, hlast⟩, q, getElem?_eq_some_get hlast, ?_, ?_,
        lexLe_refl q, le_of_eq (cross_right_self _ _).symm⟩
      · rw [getElem?_eq_some_get hi, hqi]
      · have hc := List.chain'_iff_get.mp hchain i (by omega)
        rw [hqi] at hc
        exact hc
    · obtain ⟨j, rfl⟩ : ∃ j, i = j + 1 := ⟨i - 1, by omega⟩
      have hj : j < st.length := by omega
      refine ⟨j, q, st.get ⟨j, hj⟩, ?_, getElem?_eq_some_get hj, lexLe_refl q, ?_,
        le_of_eq (cross_right_base _ _).symm⟩
      · rw [getElem?_eq_some_get hi, hqi]
      · have hc := List.chain'_iff_get.mp hchain j (by omega)
        rw [hqi] at hc
        exact hc
  · exact hch

lemma buildLoop_nil_getLast? (l : List Point) (h : l ≠ []) :
    (buildLoop l []).getLast? = l.head? := by
  rcases l with _ | ⟨p, rest⟩
  · exact absurd rfl h
  · show (buildLoop rest [p]).getLast? = _
    rw [buildLoop_getLast? rest [p] (List.cons_ne_nil _ _)]
    rfl

lemma buildLoop_nil_length (l : List Point) (h : 2 ≤ l.length) :
    2 ≤ (buildLoop l []).length := by
  rcases l with _ | ⟨p, rest⟩
  · simp at h
  · show 2 ≤ (buildLoop rest [p]).length
    apply buildLoop_length rest [p] (List.cons_ne_nil _ _)
    intro hcon
    rw [hcon] at h
    simp at h

lemma head?_mem_dropLast {l : List Point} {x : Point} (h2 : 2 ≤ l.length)
    (hx : l.head? = some x) : x ∈ l.dropLast := by
  rcases l with _ | ⟨y, l'⟩
  · simp at hx
  rcases l' with _ | ⟨z, l''⟩
  · simp at h2
  · have hxy : y = x := by simpa using hx
    subst hxy
    rw [List.dropLast_cons₂]
    exact List.mem_cons_self _ _

lemma mem_dropLast_or_getLast? {l : List Point} {x : Point} (hx : x ∈ l) :
    x ∈ l.dropLast ∨ l.getLast? = some x := by
  have hne : l ≠ [] := List.ne_nil_of_mem hx
  have hx' : x ∈ l.dropLast ++ [l.getLast hne] := by
    rw [List.dropLast_append_getLast hne]
    exact hx
  rcases List.mem_append.mp hx' with h | h
  · exact Or.inl h
  · right
    have hxl : x = l.getLast hne := by simpa using h
    rw [hxl, List.getLast?_eq_getLast _ hne]

/-- Every point kept on either chain stack appears in the hull output list. -/
lemma stack_mem_out {l : List Point} (hlen : 4 ≤ l.length) {x : Point}
    (hx : x ∈ buildLoop l [] ∨ x ∈ buildLoop l.reverse []) :
    x ∈ (chainOf l).dropLast ++ (chainOf l.reverse).dropLast := by
  have hlne : l ≠ [] := by
    intro hcon
    rw [hcon] at hlen
    simp at hlen
  have hrevne : l.reverse ≠ [] := by simpa using hlne
  have h2low : 2 ≤ (buildLoop l []).length := buildLoop_nil_length l (by omega)
  have h2up : 2 ≤ (buildLoop l.reverse []).length :=
    buildLoop_nil_length _ (by rw [List.length_reverse]; omega)
  rcases hx with hx | hx
  · have hx' : x ∈ chainOf l := by
      show x ∈ (buildLoop l []).reverse
      exact List.mem_reverse.mpr hx
    rcases mem_dropLast_or_getLast? hx' with h | h
    · exact List.mem_append.mpr (Or.inl h)
    · refine List.mem_append.mpr (Or.inr (head?_mem_dropLast ?_ ?_))
      · show 2 ≤ ((buildLoop l.reverse []).reverse).length
        rw [List.length_reverse]
        exact h2up
      · show ((buildLoop l.reverse []).reverse).head? = some x
        rw [List.head?_reverse, buildLoop_nil_getLast? _ hrevne, List.head?_reverse,
          ← buildLoop_head? l [] hlne, ← List.getLast?_reverse]
        exact h
  · have hx' : x ∈ chainOf l.reverse := by
      show x ∈ (buildLoop l.reverse []).reverse
      exact List.mem_reverse.mpr hx
    rcases mem_dropLast_or_getLast? hx' with h | h
    · exact List.mem_append.mpr (Or.inr h)
    · refine List.mem_append.mpr (Or.inl (head?_mem_dropLast ?_ ?_))
      · show 2 ≤ ((buildLoop l []).reverse).length
        rw [List.length_reverse]
        exact h2low
      · show ((buildLoop l []).reverse).head? = some x
        rw [List.head?_reverse, buildLoop_nil_getLast? _ hlne, ← List.getLast?_reverse,
          ← buildLoop_head? l.reverse [] hrevne, ← List.getLast?_reverse]
        exact h

lemma mem_of_some_getElem? {l : List Point} {i : ℕ} {a : Point} (h : l[i]? = some a) :
    a ∈ l := by
  have hi : i < l.length := by
    by_contra hcon
    push_neg at hcon
    rw [List.getElem?_eq_none hcon] at h
    simp at h
  have ha : l[i] = a := by
    have h2 := List.getElem?_eq_getElem hi
    rw [h2] at h
    exact Option.some.inj h
  rw [← ha]
  exact List.getElem_mem hi

end SR



/-! ## C8 geometry: from chord coverage to convex-hull membership.
These live outside the `SR` namespace so that `convexHull` refers to Mathlib's
convex hull while the program's hull is `SR.convexHull`. -/

lemma mem_seg {x y q : SR.Point} (k : ℝ) (h0 : 0 ≤ k) (h1 : k ≤ 1)
    (e1 : q.1 = x.1 + k * (y.1 - x.1)) (e2 : q.2 = x.2 + k * (y.2 - x.2)) :
    q ∈ segment ℝ x y := by
  refine ⟨1 - k, k, by linarith, h0, by ring, ?_⟩
  have c1 : ((1 - k) • x + k • y).1 = q.1 := by
    simp only [Prod.fst_add, Prod.smul_fst, smul_eq_mul]
    rw [e1]
    ring
  have c2 : ((1 - k) • x + k • y).2 = q.2 := by
    simp only [Prod.snd_add, Prod.smul_snd, smul_eq_mul]
    rw [e2]
    ring
  exact Prod.ext_iff.mpr ⟨c1, c2⟩

lemma seg_hull {S : Set SR.Point} {x y : SR.Point} (hx : x ∈ S) (hy : y ∈ S) :
    segment ℝ x y ⊆ convexHull ℝ S :=
  (convex_convexHull ℝ S).segment_subset (subset_convexHull ℝ S hx) (subset_convexHull ℝ S hy)

/-- A point lex-between a lower chord `a -> b` (lying on or above it) and an upper
chord `c -> d` (processed right-to-left, lying on or below it) is in the convex hull
of the four chord endpoints. -/
lemma quadCover {a b c d q : SR.Point}
    (haq : SR.lexLe a q) (hqb : SR.lexLe q b) (hdq : SR.lexLe d q) (hqc : SR.lexLe q c)
    (h1 : 0 ≤ SR.cross a b q) (h2 : 0 ≤ SR.cross c d q) :
    q ∈ convexHull ℝ ({a, b, c, d} : Set SR.Point) := by
  have haq1 := SR.lexLe_fst haq
  have hqb1 := SR.lexLe_fst hqb
  have hdq1 := SR.lexLe_fst hdq
  have hqc1 := SR.lexLe_fst hqc
  have hmema : a ∈ ({a, b, c, d} : Set SR.Point) := by simp
  have hmemb : b ∈ ({a, b, c, d} : Set SR.Point) := by simp
  have hmemc : c ∈ ({a, b, c, d} : Set SR.Point) := by simp
  have hmemd : d ∈ ({a, b, c, d} : Set SR.Point) := by simp
  by_cases hab : b.1 ≤ a.1
  · -- vertical lower chord: q lies on the segment a-b
    have hq1a : q.1 = a.1 := le_antisymm (le_trans hqb1 hab) haq1
    have ha2 : a.2 ≤ q.2 := SR.lexLe_snd_of_fst_eq haq hq1a.symm
    have hb2 : q.2 ≤ b.2 := SR.lexLe_snd_of_fst_eq hqb (le_antisymm hqb1 (hab.trans haq1))
    rcases eq_or_lt_of_le (le_trans ha2 hb2) with he | hlt
    · have hqa : q = a := Prod.ext_iff.mpr ⟨hq1a, le_antisymm (by linarith) ha2⟩
      rw [hqa]
      exact subset_convexHull ℝ _ hmema
    · refine seg_hull hmema hmemb (mem_seg ((q.2 - a.2) / (b.2 - a.2))
        (div_nonneg (by linarith) (by linarith)) ((div_le_one (by linarith)).mpr (by linarith))
        ?_ ?_)
      · rw [show b.1 - a.1 = 0 by linarith, mul_zero, add_zero]
        exact hq1a
      · rw [div_mul_cancel₀ _ (sub_ne_zero.mpr hlt.ne')]
        ring
  by_cases hcd : c.1 ≤ d.1
  · -- vertical upper chord: q lies on the segment d-c
    have hq1d : q.1 = d.1 := le_antisymm (le_trans hqc1 hcd) hdq1
    have hd2 : d.2 ≤ q.2 := SR.lexLe_snd_of_fst_eq hdq hq1d.symm
    have hc2 : q.2 ≤ c.2 := SR.lexLe_snd_of_fst_eq hqc (le_antisymm hqc1 (hcd.trans hdq1))
    rcases eq_or_lt_of_le (le_trans hd2 hc2) with he | hlt
    · have hqd : q = d := Prod.ext_iff.mpr ⟨hq1d, le_antisymm (by linarith) hd2⟩
      rw [hqd]
      exact subset_convexHull ℝ _ hmemd
    · refine seg_hull hmemd hmemc (mem_seg ((q.2 - d.2) / (c.2 - d.2))
        (div_nonneg (by linarith) (by linarith)) ((div_le_one (by linarith)).mpr (by linarith))
        ?_ ?_)
      · rw [show c.1 - d.1 = 0 by linarith, mul_zero, add_zero]
        exact hq1d
      · rw [div_mul_cancel₀ _ (sub_ne_zero.mpr hlt.ne')]
        ring
  -- main case: both chords have strictly increasing abscissae
  push_neg at hab hcd
  set t : ℝ := (q.1 - a.1) / (b.1 - a.1) with hts
  set s : ℝ := (q.1 - d.1) / (c.1 - d.1) with hss
  set A : SR.Point := (a.1 + t * (b.1 - a.1), a.2 + t * (b.2 - a.2)) with hAs
  set B : SR.Point := (d.1 + s * (c.1 - d.1), d.2 + s * (c.2 - d.2)) with hBs
  have hA : A ∈ segment ℝ a b :=
    mem_seg t (div_nonneg (by linarith) (by linarith))
      ((div_le_one (by linarith)).mpr (by linarith)) rfl rfl
  have hB : B ∈ segment ℝ d c :=
    mem_seg s (div_nonneg (by linarith) (by linarith))
      ((div_le_one (by linarith)).mpr (by linarith)) rfl rfl
  have hA1 : A.1 = q.1 := by
    show a.1 + t * (b.1 - a.1) = q.1
    rw [hts, div_mul_cancel₀ _ (sub_ne_zero.mpr hab.ne')]
    ring
  have hB1 : B.1 = q.1 := by
    show d.1 + s * (c.1 - d.1) = q.1
    rw [hss, div_mul_cancel₀ _ (sub_ne_zero.mpr hcd.ne')]
    ring
  have hA2 : A.2 ≤ q.2 := by
    have hne : b.1 - a.1 ≠ 0 := sub_ne_zero.mpr hab.ne'
    have h3 : (b.1 - a.1) * t = q.1 - a.1 := by
      rw [hts, mul_comm, div_mul_cancel₀ _ hne]
    have hkey : (b.1 - a.1) * (q.2 - A.2) = SR.cross a b q := by
      show (b.1 - a.1) * (q.2 - (a.2 + t * (b.2 - a.2))) =
        (b.1 - a.1) * (q.2 - a.2) - (b.2 - a.2) * (q.1 - a.1)
      linear_combination (-(b.2 - a.2)) * h3
    by_contra hcon
    push_neg at hcon
    nlinarith [hkey, h1, mul_pos (sub_pos.mpr hab) (sub_pos.mpr hcon)]
  have hB2 : q.2 ≤ B.2 := by
    have hne : c.1 - d.1 ≠ 0 := sub_ne_zero.mpr hcd.ne'
    have h3 : (c.1 - d.1) * s = q.1 - d.1 := by
      rw [hss, mul_comm, div_mul_cancel₀ _ hne]
    have hkey : (c.1 - d.1) * (B.2 - q.2) = SR.cross c d q := by
      show (c.1 - d.1) * ((d.2 + s * (c.2 - d.2)) - q.2) =
        (d.1 - c.1) * (q.2 - c.2) - (d.2 - c.2) * (q.1 - c.1)
      linear_combination (c.2 - d.2) * h3
    by_contra hcon
    push_neg at hcon
    nlinarith [hkey, h2, mul_pos (sub_pos.mpr hcd) (sub_pos.mpr hcon)]
  have hAh : A ∈ convexHull ℝ ({a, b, c, d} : Set SR.Point) := seg_hull hmema hmemb hA
  have hBh : B ∈ convexHull ℝ ({a, b, c, d} : Set SR.Point) := seg_hull hmemd hmemc hB
  rcases eq_or_lt_of_le (le_trans hA2 hB2) with he | hlt
  · have hqA : q = A := Prod.ext_iff.mpr ⟨hA1.symm, le_antisymm (by linarith) hA2⟩
    rw [hqA]
    exact hAh
  · refine (convex_convexHull ℝ _).segment_subset hAh hBh
      (mem_seg ((q.2 - A.2) / (B.2 - A.2)) (div_nonneg (by linarith) (by linarith))
        ((div_le_one (by linarith)).mpr (by linarith)) ?_ ?_)
    · rw [show B.1 - A.1 = 0 by rw [hA1, hB1]; ring, mul_zero, add_zero, hA1]
    · rw [div_mul_cancel₀ _ (sub_ne_zero.mpr hlt.ne')]
      ring


/-- **C8.** Every point of a non-empty input list lies inside or on the polygon formed
by `convexHull(P)`: it is a convex combination of the returned hull vertices. -/
theorem C8_convex_hull_containment (P : List SR.Point) (hne : P ≠ []) :
    ∀ q ∈ P, q ∈ convexHull ℝ {x : SR.Point | x ∈ SR.convexHull P} := by
  intro q hq
  by_cases h3 : P.length ≤ 3
  · have hh : SR.convexHull P = P := by
      unfold SR.convexHull
      rw [if_pos h3]
    rw [hh]
    exact subset_convexHull ℝ _ hq
  · push_neg at h3
    set L := List.insertionSort SR.lexLe P with hL
    haveI instTot : IsTotal SR.Point SR.lexLe := ⟨SR.lexLe_total⟩
    haveI instTrans : IsTrans SR.Point SR.lexLe := ⟨fun a b c => SR.lexLe_trans⟩
    have hsort : List.Sorted SR.lexLe L := List.sorted_insertionSort SR.lexLe P
    have hqL : q ∈ L := (List.perm_insertionSort SR.lexLe P).mem_iff.mpr hq
    have hLlen : 4 ≤ L.length := by
      rw [hL, List.length_insertionSort]
      omega
    have hLne : L ≠ [] := by
      intro hcon
      rw [hcon] at hLlen
      simp at hLlen
    have hrevne : L.reverse ≠ [] := by simpa using hLne
    have hhull : SR.convexHull P =
        (SR.chainOf L).dropLast ++ (SR.chainOf L.reverse).dropLast := by
      show (if P.length ≤ 3 then P
        else (SR.chainOf (List.insertionSort SR.lexLe P)).dropLast ++
          (SR.chainOf (List.insertionSort SR.lexLe P).reverse).dropLast) = _
      rw [if_neg (by omega), ← hL]
    -- lower chain: a chord (a, b) covering q from below
    have hchainLow := SR.buildLoop_chain L [] List.chain'_nil (by simp) hsort
    have hcovLow : SR.Cov (SR.buildLoop L []) q :=
      SR.buildLoop_cov q L [] List.chain'_nil (by simp) hsort (Or.inr hqL)
    have hlenLow : 2 ≤ (SR.buildLoop L []).length :=
      SR.buildLoop_nil_length L (by omega)
    obtain ⟨i, a, b, hia, hib, hlaq, hlqb, hcab⟩ := SR.cov_pair hlenLow hchainLow hcovLow
    have haS : a ∈ SR.buildLoop L [] := SR.mem_of_some_getElem? hia
    have hbS : b ∈ SR.buildLoop L [] := SR.mem_of_some_getElem? hib
    -- upper chain, via negation: a chord (c, d) covering q from above
    set M := (L.reverse).map Neg.neg with hM
    have hsortM : List.Sorted SR.lexLe M := by
      rw [hM]
      refine (List.pairwise_map).mpr ?_
      rw [List.pairwise_reverse]
      exact hsort.imp (fun h => SR.lexLe_neg.mpr h)
    have hqM : -q ∈ M := by
      rw [hM]
      exact List.mem_map.mpr ⟨q, List.mem_reverse.mpr hqL, rfl⟩
    have hMlen : 2 ≤ M.length := by
      rw [hM, List.length_map, List.length_reverse]
      omega
    have hchainUp := SR.buildLoop_chain M [] List.chain'_nil (by simp) hsortM
    have hcovUp : SR.Cov (SR.buildLoop M []) (-q) :=
      SR.buildLoop_cov (-q) M [] List.chain'_nil (by simp) hsortM (Or.inr hqM)
    have hlenUp : 2 ≤ (SR.buildLoop M []).length := SR.buildLoop_nil_length M hMlen
    obtain ⟨j, c', d', hjc, hjd, hl1, hl2, hcr⟩ := SR.cov_pair hlenUp hchainUp hcovUp
    have hSN : SR.buildLoop M [] = (SR.buildLoop L.reverse []).map Neg.neg := by
      rw [hM]
      simpa using SR.buildLoop_neg L.reverse []
    rw [hSN, List.getElem?_map] at hjc hjd
    obtain ⟨c, hc1, hc2⟩ := Option.map_eq_some'.mp hjc
    obtain ⟨d, hd1, hd2⟩ := Option.map_eq_some'.mp hjd
    rw [← hc2] at hl1
    rw [← hd2] at hl2
    rw [← hc2, ← hd2] at hcr
    have hlqc : SR.lexLe q c := SR.lexLe_neg.mp hl1
    have hldq : SR.lexLe d q := SR.lexLe_neg.mp hl2
    have hccd : 0 ≤ SR.cross c d q := by rwa [SR.cross_neg] at hcr
    have hcS : c ∈ SR.buildLoop L.reverse [] := SR.mem_of_some_getElem? hc1
    have hdS : d ∈ SR.buildLoop L.reverse [] := SR.mem_of_some_getElem? hd1
    -- assemble
    have hquad := quadCover hlaq hlqb hldq hlqc hcab hccd
    rw [hhull]
    refine convexHull_mono ?_ hquad
    intro x hx
    have hout : x ∈ (SR.chainOf L).dropLast ++ (SR.chainOf L.reverse).dropLast := by
      rcases hx with rfl | rfl | rfl | rfl
      · exact SR.stack_mem_out hLlen (Or.inl haS)
      · exact SR.stack_mem_out hLlen (Or.inl hbS)
      · exact SR.stack_mem_out hLlen (Or.inr hcS)
      · exact SR.stack_mem_out hLlen (Or.inr hdS)
    exact hout

/-- Witness for C8 at the one-point input `[(0, 0)]`. -/
theorem C8_witness :
    ([((0 : ℝ), (0 : ℝ))] : List SR.Point) ≠ [] ∧
    ((0 : ℝ), (0 : ℝ)) ∈
      convexHull ℝ {x : SR.Point | x ∈ SR.convexHull [((0 : ℝ), (0 : ℝ))]} :=
  ⟨by simp, C8_convex_hull_containment _ (by simp) _ (by simp)⟩

end
